import Mathlib

/-!
Verification development for the ProductImporter CSV import pipeline
(`server/app/preprocesscsv.py`, `server/app/tasks.py`, `server/app/models.py`).

The embedding works on parsed CSV content: a file is a header (list of field
names) plus data rows (each a list of field strings).  Encoding/dialect
sniffing is below this abstraction; both passes of the source read the same
file with the same dialect, so they see the same parsed rows.

String operations are modelled directly on the character list so that they
follow the Python semantics used by the source (`str.strip`, `str.lower`,
`str.replace`) and evaluate well in the kernel.  `Char.toLower` covers the
ASCII range, which is the range exercised here.
-/

namespace ProductImporter

/-- Python `str.isspace` on the ASCII whitespace actually produced by CSV
fields: space, tab, newline, carriage return, vertical tab, form feed. -/
def isSpace (c : Char) : Bool :=
  c = ' ' || c = '\t' || c = '\n' || c = '\r' || c = '\x0b' || c = '\x0c'

/-- Strip a leading and trailing run of characters satisfying `p`. -/
def stripWhile (p : Char → Bool) (l : List Char) : List Char :=
  ((l.dropWhile p).reverse.dropWhile p).reverse

/-- Python `str.strip()` (no argument: whitespace). -/
def pyStrip (s : String) : String := ⟨stripWhile isSpace s.data⟩

/-- Python `str.strip(c)` for a single character `c`. -/
def pyStripChar (c : Char) (s : String) : String := ⟨stripWhile (· = c) s.data⟩

/-- Python `str.lower()` (ASCII range). -/
def pyLower (s : String) : String := ⟨s.data.map Char.toLower⟩

/-- Python `str.replace(old, "")` for a one-character `old`: drop every
occurrence of `c`. -/
def pyRemoveChar (c : Char) (s : String) : String := ⟨s.data.filter (· ≠ c)⟩

/-- `preprocesscsv.py` line 91-92: `row[sku_idx].strip().lower()`, the
normalised (case-folded, trimmed) SKU key. -/
def normKey (s : String) : String := pyLower (pyStrip s)

/-- A parsed CSV data row. -/
abbrev Row := List String

/-- `preprocesscsv.py` lines 88-89: rows shorter than the header are padded
with empty fields. -/
def padRow (n : Nat) (r : Row) : Row :=
  if r.length < n then r ++ List.replicate (n - r.length) "" else r

/-- The normalised SKU key of a row, read at column `i` of a row padded to
header width `hlen` (`preprocesscsv.py` lines 88-92). -/
def rowKeyAt (i hlen : Nat) (r : Row) : String :=
  normKey ((padRow hlen r).getD i "")

/-- `preprocesscsv.py` line 63: header names compared after `strip().lower()`. -/
def headerNorm (header : List String) : List String :=
  header.map (fun h => pyLower (pyStrip h))

/-- `preprocesscsv.py` line 18: the default prioritized SKU column name list. -/
def defaultSkuNames : List String := ["sku", "product_sku", "id", "code"]

/-- `preprocesscsv.py` lines 62-74: locate the SKU column index
(case-insensitively, first matching name in priority order; the fallback
re-check of `"sku"` is subsumed by the default list and kept for fidelity). -/
def findSkuIdx (header : List String) : Option Nat :=
  let hn := headerNorm header
  match defaultSkuNames.find? (fun n => n ∈ hn) with
  | some n => some (hn.indexOf n)
  | none => if "sku" ∈ hn then some (hn.indexOf "sku") else none

/-- The sqlite `INSERT OR REPLACE` keyed on the `sku_norm` primary key
(`preprocesscsv.py` line 83): the entry for `k` is replaced.  The store is
an unordered table read back `ORDER BY sku_norm`, so the list order chosen
here is irrelevant to the emitted output (see the determinism theorem). -/
def insertReplace (l : List (String × Row)) (k : String) (v : Row) :
    List (String × Row) :=
  (l.filter (fun e => e.1 ≠ k)) ++ [(k, v)]

/-- One streamed input row of the first pass (`preprocesscsv.py` lines 86-98):
pad, read the SKU field, skip empty keys, otherwise upsert into the store. -/
def dstep (i hlen : Nat) (acc : List (String × Row)) (r : Row) :
    List (String × Row) :=
  if rowKeyAt i hlen r = "" then acc
  else insertReplace acc (rowKeyAt i hlen r) (padRow hlen r)

/-- The dedupe store after consuming the whole input
(`preprocesscsv.py` lines 86-107). -/
def dedupeStore (i hlen : Nat) (rows : List Row) : List (String × Row) :=
  rows.foldl (dstep i hlen) []

/-- Lexicographic comparison of character lists by codepoint — sqlite's
BINARY collation on TEXT compares UTF-8 bytes, and on UTF-8 strings byte
order agrees with codepoint order. -/
def charListLE : List Char → List Char → Bool
  | [], _ => true
  | _ :: _, [] => false
  | a :: as, b :: bs =>
    if a.toNat < b.toNat then true
    else if b.toNat < a.toNat then false
    else charListLE as bs

/-- The `ORDER BY sku_norm` ordering on normalised keys
(`preprocesscsv.py` line 115). -/
def strLE (s t : String) : Prop := charListLE s.data t.data = true

theorem charListLE_cons_iff (a b : Char) (as bs : List Char) :
    charListLE (a :: as) (b :: bs) = true ↔
      a.toNat < b.toNat ∨ (a.toNat = b.toNat ∧ charListLE as bs = true) := by
  simp only [charListLE]
  split_ifs with h1 h2
  · simp [h1]
  · constructor
    · intro h
      cases h
    · rintro (h | ⟨h, _⟩) <;> omega
  · constructor
    · intro h
      exact Or.inr ⟨by omega, h⟩
    · rintro (h | ⟨_, h⟩)
      · omega
      · exact h

theorem charListLE_total (x : List Char) : ∀ y,
    charListLE x y = true ∨ charListLE y x = true := by
  induction x with
  | nil => intro y; exact Or.inl rfl
  | cons a as ih =>
    intro y
    cases y with
    | nil => exact Or.inr rfl
    | cons b bs =>
      rw [charListLE_cons_iff, charListLE_cons_iff]
      rcases Nat.lt_trichotomy a.toNat b.toNat with h1 | h1 | h1
      · exact Or.inl (Or.inl h1)
      · rcases ih bs with h | h
        · exact Or.inl (Or.inr ⟨h1, h⟩)
        · exact Or.inr (Or.inr ⟨h1.symm, h⟩)
      · exact Or.inr (Or.inl h1)

theorem charListLE_trans (x : List Char) : ∀ y z,
    charListLE x y = true → charListLE y z = true → charListLE x z = true := by
  induction x with
  | nil => intro y z _ _; rfl
  | cons a as ih =>
    intro y z h1 h2
    cases y with
    | nil => exact absurd h1 (by simp [charListLE])
    | cons b bs =>
      cases z with
      | nil => exact absurd h2 (by simp [charListLE])
      | cons c cs =>
        rw [charListLE_cons_iff] at h1 h2 ⊢
        rcases h1 with h1 | ⟨h1e, h1r⟩ <;> rcases h2 with h2 | ⟨h2e, h2r⟩
        · exact Or.inl (by omega)
        · exact Or.inl (by omega)
        · exact Or.inl (by omega)
        · exact Or.inr ⟨by omega, ih bs cs h1r h2r⟩

theorem char_eq_of_toNat_eq (a b : Char) (h : a.toNat = b.toNat) : a = b :=
  Char.ext (UInt32.ext h)

theorem charListLE_antisymm (x : List Char) : ∀ y,
    charListLE x y = true → charListLE y x = true → x = y := by
  induction x with
  | nil =>
    intro y _ h2
    cases y with
    | nil => rfl
    | cons b bs => exact absurd h2 (by simp [charListLE])
  | cons a as ih =>
    intro y h1 h2
    cases y with
    | nil => exact absurd h1 (by simp [charListLE])
    | cons b bs =>
      rw [charListLE_cons_iff] at h1 h2
      rcases h1 with h1 | ⟨h1e, h1r⟩ <;> rcases h2 with h2 | ⟨h2e, h2r⟩
      · omega
      · omega
      · omega
      · have hab : a = b := char_eq_of_toNat_eq a b h1e
        subst hab
        rw [ih bs h1r h2r]

theorem strLE_antisymm (s t : String) (h1 : strLE s t) (h2 : strLE t s) : s = t :=
  String.ext (charListLE_antisymm s.data t.data h1 h2)

/-- Ordering of store entries by the normalised key. -/
def keyLE (a b : String × Row) : Prop := strLE a.1 b.1

instance : DecidableRel keyLE := fun a b =>
  inferInstanceAs (Decidable (charListLE a.1.data b.1.data = true))

instance : IsTotal (String × Row) keyLE :=
  ⟨fun a b => charListLE_total a.1.data b.1.data⟩

instance : IsTrans (String × Row) keyLE :=
  ⟨fun a b c h h2 => charListLE_trans a.1.data b.1.data c.1.data h h2⟩

/-- The strict key order, used to show sorted enumerations are unique. -/
def keyLT (a b : String × Row) : Prop := keyLE a b ∧ a.1 ≠ b.1

instance : IsAntisymm (String × Row) keyLT :=
  ⟨fun a b h h2 => absurd (strLE_antisymm a.1 b.1 h.1 h2.1) h.2⟩

/-- Enumerate the store in `sku_norm` order. -/
def sortStore (l : List (String × Row)) : List (String × Row) :=
  l.insertionSort keyLE

/-- The lines of the output file: the original header followed by the
retained rows in normalised-key order (`preprocesscsv.py` lines 109-120). -/
def emitLines (header : List String) (store : List (String × Row)) :
    List Row :=
  header :: (sortStore store).map Prod.snd

/-- `preprocess_dedupe_csv` (`preprocesscsv.py` lines 8-129) on parsed
content: locate the SKU column (raising `ValueError` when absent, modelled
as `Except.error`), dedupe by normalised key keeping the last occurrence,
and emit the header plus the retained rows sorted by key.  The result is
the parsed lines of the output file, header first. -/
def preprocess_dedupe_csv (header : List String) (rows : List Row) :
    Except String (List Row) :=
  match findSkuIdx header with
  | none => .error "Could not find SKU column in CSV header."
  | some i => .ok (emitLines header (dedupeStore i header.length rows))

/-! ### Basic facts about padding and the dedupe store -/

theorem padRow_le_length (n : Nat) (r : Row) : n ≤ (padRow n r).length := by
  unfold padRow
  split_ifs with h
  · simp only [List.length_append, List.length_replicate]
    omega
  · omega

theorem padRow_eq_of_le (n : Nat) (r : Row) (h : n ≤ r.length) : padRow n r = r := by
  simp [padRow, Nat.not_lt.mpr h]

theorem padRow_idem (n : Nat) (r : Row) : padRow n (padRow n r) = padRow n r :=
  padRow_eq_of_le n _ (padRow_le_length n r)

theorem rowKeyAt_padRow (i hlen : Nat) (r : Row) :
    rowKeyAt i hlen (padRow hlen r) = rowKeyAt i hlen r := by
  unfold rowKeyAt
  rw [padRow_idem]

theorem find?_filter_ne (l : List (String × Row)) (k k2 : String) (hne : k2 ≠ k) :
    (l.filter (fun e => e.1 ≠ k)).find? (fun e => e.1 = k2)
      = l.find? (fun e => e.1 = k2) := by
  induction l with
  | nil => rfl
  | cons e t ih =>
    by_cases he : e.1 = k
    · rw [List.filter_cons_of_neg (by simp [he]),
        List.find?_cons_of_neg _ (by simp [he]; exact fun h => hne h.symm), ih]
    · rw [List.filter_cons_of_pos (by simp [he])]
      by_cases h2 : e.1 = k2
      · rw [List.find?_cons_of_pos _ (by simp [h2]), List.find?_cons_of_pos _ (by simp [h2])]
      · rw [List.find?_cons_of_neg _ (by simp [h2]), List.find?_cons_of_neg _ (by simp [h2]), ih]

theorem insertReplace_find_self (l : List (String × Row)) (k : String) (v : Row) :
    (insertReplace l k v).find? (fun e => e.1 = k) = some (k, v) := by
  unfold insertReplace
  rw [List.find?_append]
  have h1 : (l.filter (fun e => e.1 ≠ k)).find? (fun e => e.1 = k) = none := by
    rw [List.find?_eq_none]
    intro x hx
    have hpx := List.of_mem_filter hx
    simp only [ne_eq, decide_not, Bool.not_eq_true', decide_eq_false_iff_not] at hpx
    simp [hpx]
  rw [h1]
  simp

theorem insertReplace_find_other (l : List (String × Row)) (k : String) (v : Row)
    (k2 : String) (hne : k2 ≠ k) :
    (insertReplace l k v).find? (fun e => e.1 = k2) = l.find? (fun e => e.1 = k2) := by
  unfold insertReplace
  rw [List.find?_append, find?_filter_ne l k k2 hne]
  cases h : l.find? (fun e => e.1 = k2) with
  | some e => rfl
  | none => simp; exact fun h => hne h.symm

theorem insertReplace_keys_nodup (l : List (String × Row)) (k : String) (v : Row)
    (h : (l.map Prod.fst).Nodup) : ((insertReplace l k v).map Prod.fst).Nodup := by
  unfold insertReplace
  rw [List.map_append, List.nodup_append]
  refine ⟨List.Nodup.sublist ((List.filter_sublist l).map Prod.fst) h, by simp, ?_⟩
  intro x hx hx2
  simp only [List.map_cons, List.map_nil, List.mem_singleton] at hx2
  subst hx2
  obtain ⟨e, he, hfst⟩ := List.mem_map.mp hx
  have hpe := List.of_mem_filter he
  simp only [ne_eq, decide_not, Bool.not_eq_true', decide_eq_false_iff_not] at hpe
  exact hpe hfst

theorem dedupeStore_append_singleton (i hlen : Nat) (rows : List Row) (r : Row) :
    dedupeStore i hlen (rows ++ [r]) = dstep i hlen (dedupeStore i hlen rows) r := by
  unfold dedupeStore
  rw [List.foldl_append]
  rfl

theorem dedupeStore_keys_nodup (i hlen : Nat) (rows : List Row) :
    ((dedupeStore i hlen rows).map Prod.fst).Nodup := by
  induction rows using List.reverseRecOn with
  | nil => simp [dedupeStore]
  | append_singleton rs r ih =>
    rw [dedupeStore_append_singleton]
    by_cases hk : rowKeyAt i hlen r = ""
    · simpa [dstep, hk] using ih
    · simp only [dstep, if_neg hk]
      exact insertReplace_keys_nodup _ _ _ ih

theorem dedupeStore_mem (i hlen : Nat) (rows : List Row) :
    ∀ e ∈ dedupeStore i hlen rows,
      e.1 = rowKeyAt i hlen e.2 ∧ e.1 ≠ "" ∧ e.2 ∈ rows.map (padRow hlen) := by
  induction rows using List.reverseRecOn with
  | nil => simp [dedupeStore]
  | append_singleton rs r ih =>
    rw [dedupeStore_append_singleton]
    intro e he
    by_cases hk : rowKeyAt i hlen r = ""
    · simp only [dstep, if_pos hk] at he
      obtain ⟨h1, h2, h3⟩ := ih e he
      exact ⟨h1, h2, by simp only [List.map_append]; exact List.mem_append_left _ h3⟩
    · simp only [dstep, if_neg hk] at he
      unfold insertReplace at he
      rcases List.mem_append.mp he with h1 | h2
      · obtain ⟨g1, g2, g3⟩ := ih e (List.mem_of_mem_filter h1)
        exact ⟨g1, g2, by simp only [List.map_append]; exact List.mem_append_left _ g3⟩
      · simp only [List.mem_singleton] at h2
        subst h2
        refine ⟨(rowKeyAt_padRow i hlen r).symm, hk, ?_⟩
        simp

theorem dedupeStore_find (i hlen : Nat) (rows : List Row) (k : String) (hk : k ≠ "") :
    (dedupeStore i hlen rows).find? (fun e => e.1 = k)
      = ((rows.filter (fun r => rowKeyAt i hlen r = k)).getLast?).map
          (fun r => (k, padRow hlen r)) := by
  induction rows using List.reverseRecOn with
  | nil => simp [dedupeStore]
  | append_singleton rs r ih =>
    rw [dedupeStore_append_singleton, List.filter_append]
    by_cases hr : rowKeyAt i hlen r = k
    · have hne : rowKeyAt i hlen r ≠ "" := by rw [hr]; exact hk
      simp only [dstep, if_neg hne]
      rw [hr, insertReplace_find_self]
      simp [hr]
    · by_cases he : rowKeyAt i hlen r = ""
      · simp only [dstep, if_pos he]
        rw [ih]
        simp [hr]
      · simp only [dstep, if_neg he]
        rw [insertReplace_find_other _ _ _ _ (fun h => hr h.symm), ih]
        simp [hr]

/-! ### The sorted enumeration: existence and uniqueness -/

theorem sortStore_sorted (l : List (String × Row)) : List.Sorted keyLE (sortStore l) :=
  List.sorted_insertionSort keyLE l

theorem sortStore_perm (l : List (String × Row)) : (sortStore l).Perm l :=
  List.perm_insertionSort keyLE l

theorem sortStore_pairwise_lt (l : List (String × Row))
    (h : (l.map Prod.fst).Nodup) : (sortStore l).Pairwise keyLT := by
  have hs : (sortStore l).Pairwise keyLE := sortStore_sorted l
  have hn : ((sortStore l).map Prod.fst).Nodup :=
    (((sortStore_perm l).map Prod.fst).nodup_iff).mpr h
  have hne : (sortStore l).Pairwise (fun a b => a.1 ≠ b.1) := List.pairwise_map.mp hn
  exact hs.and hne

theorem sortStore_eq_of_perm (l1 l2 : List (String × Row)) (hp : l1.Perm l2)
    (h : (l1.map Prod.fst).Nodup) : sortStore l1 = sortStore l2 := by
  refine List.eq_of_perm_of_sorted (r := keyLT)
    (((sortStore_perm l1).trans hp).trans (sortStore_perm l2).symm)
    (sortStore_pairwise_lt l1 h) (sortStore_pairwise_lt l2 ?_)
  exact ((hp.map Prod.fst).nodup_iff).mp h

/-! ### Relating the emitted data rows to the store -/

theorem filter_map_snd (i hlen : Nat) (l : List (String × Row))
    (hinv : ∀ e ∈ l, e.1 = rowKeyAt i hlen e.2) (k : String) :
    (l.map Prod.snd).filter (fun r => rowKeyAt i hlen r = k)
      = (l.filter (fun e => e.1 = k)).map Prod.snd := by
  induction l with
  | nil => rfl
  | cons e t ih =>
    have he := hinv e (List.mem_cons_self e t)
    have ht : ∀ x ∈ t, x.1 = rowKeyAt i hlen x.2 :=
      fun x hx => hinv x (List.mem_cons_of_mem _ hx)
    by_cases hk : e.1 = k
    · rw [List.map_cons, List.filter_cons_of_pos (by simp [← he, hk]),
        List.filter_cons_of_pos (by simp [hk]), List.map_cons, ih ht]
    · rw [List.map_cons, List.filter_cons_of_neg (by simp [← he, hk]),
        List.filter_cons_of_neg (by simp [hk]), ih ht]

theorem filter_eq_find_toList (l : List (String × Row)) (k : String)
    (h : (l.map Prod.fst).Nodup) :
    l.filter (fun e => e.1 = k) = (l.find? (fun e => e.1 = k)).toList := by
  induction l with
  | nil => rfl
  | cons e t ih =>
    rw [List.map_cons, List.nodup_cons] at h
    by_cases hk : e.1 = k
    · rw [List.filter_cons_of_pos (by simp [hk]), List.find?_cons_of_pos _ (by simp [hk])]
      have ht : t.filter (fun e => e.1 = k) = [] := by
        refine List.filter_eq_nil_iff.mpr ?_
        intro x hx hpx
        simp only [decide_eq_true_eq] at hpx
        exact h.1 (by rw [hk, ← hpx]; exact List.mem_map_of_mem Prod.fst hx)
      rw [ht]
      rfl
    · rw [List.filter_cons_of_neg (by simp [hk]), List.find?_cons_of_neg _ (by simp [hk]),
        ih h.2]

theorem sortStore_filter_key (store : List (String × Row)) (k : String)
    (hnd : (store.map Prod.fst).Nodup) :
    (sortStore store).filter (fun e => e.1 = k) = store.filter (fun e => e.1 = k) := by
  have hperm := (sortStore_perm store).filter (fun e => decide (e.1 = k))
  cases hf : store.find? (fun e => e.1 = k) with
  | none =>
    have hnil : store.filter (fun e => e.1 = k) = [] := by
      rw [filter_eq_find_toList store k hnd, hf]
      rfl
    rw [hnil]
    exact (hnil ▸ hperm).eq_nil
  | some e =>
    have hone : store.filter (fun e => e.1 = k) = [e] := by
      rw [filter_eq_find_toList store k hnd, hf]
      rfl
    rw [hone]
    exact List.perm_singleton.mp (hone ▸ hperm)

/-- C2 (amended): when the header has a SKU-like column at index `i`, the
deduplicated output is the header followed by one data row per nonempty
normalised key — the padded last occurrence of that key in original input
order — sorted by the normalised key; rows whose SKU is empty after
trimming are dropped. -/
theorem dedupe_output_last_wins (header : List String) (rows : List Row) (i : Nat)
    (hidx : findSkuIdx header = some i) :
    ∃ out, preprocess_dedupe_csv header rows = .ok (header :: out) ∧
      out.Pairwise (fun r s =>
        strLE (rowKeyAt i header.length r) (rowKeyAt i header.length s)) ∧
      (∀ k, k ≠ "" →
        out.filter (fun r => rowKeyAt i header.length r = k)
          = (((rows.filter (fun r => rowKeyAt i header.length r = k)).getLast?).map
              (padRow header.length)).toList) ∧
      out.filter (fun r => rowKeyAt i header.length r = "") = [] := by
  have hnd := dedupeStore_keys_nodup i header.length rows
  have hinv : ∀ e ∈ sortStore (dedupeStore i header.length rows),
      e.1 = rowKeyAt i header.length e.2 ∧ e.1 ≠ "" := by
    intro e he
    have hm := dedupeStore_mem i header.length rows e
      (((sortStore_perm (dedupeStore i header.length rows)).mem_iff).mp he)
    exact ⟨hm.1, hm.2.1⟩
  refine ⟨(sortStore (dedupeStore i header.length rows)).map Prod.snd, ?_, ?_, ?_, ?_⟩
  · unfold preprocess_dedupe_csv emitLines
    rw [hidx]
  · refine List.pairwise_map.mpr ?_
    refine (sortStore_sorted (dedupeStore i header.length rows)).imp_of_mem ?_
    intro a b ha hb hab
    rw [← (hinv a ha).1, ← (hinv b hb).1]
    exact hab
  · intro k hk
    rw [filter_map_snd i header.length _ (fun e he => (hinv e he).1) k,
      sortStore_filter_key _ k hnd, filter_eq_find_toList _ k hnd,
      dedupeStore_find i header.length rows k hk]
    cases (rows.filter (fun r => rowKeyAt i header.length r = k)).getLast? <;> rfl
  · rw [filter_map_snd i header.length _ (fun e he => (hinv e he).1) ""]
    have hnil : (sortStore (dedupeStore i header.length rows)).filter
        (fun e => e.1 = "") = [] := by
      refine List.filter_eq_nil_iff.mpr ?_
      intro e he hp
      exact (hinv e he).2 (by simpa using hp)
    rw [hnil]
    rfl

/-- C9: the deduplicator's output is determined by the input content alone —
however the on-disk key-value store enumerates its entries (any permutation
`l1`, `l2` of the final store), sorting by the normalised key yields the one
emitted line sequence, which is the function's output. -/
theorem dedupe_run_deterministic (header : List String) (rows : List Row) (i : Nat)
    (l1 l2 : List (String × Row))
    (h1 : l1.Perm (dedupeStore i header.length rows))
    (h2 : l2.Perm (dedupeStore i header.length rows)) :
    emitLines header l1 = emitLines header l2 ∧
    (findSkuIdx header = some i →
      preprocess_dedupe_csv header rows = .ok (emitLines header l1)) := by
  have hnd : (l1.map Prod.fst).Nodup :=
    ((h1.map Prod.fst).nodup_iff).mpr (dedupeStore_keys_nodup i header.length rows)
  have hss : sortStore l1 = sortStore l2 :=
    sortStore_eq_of_perm l1 l2 (h1.trans h2.symm) hnd
  constructor
  · unfold emitLines
    rw [hss]
  · intro hidx
    have hs2 : sortStore (dedupeStore i header.length rows) = sortStore l1 :=
      sortStore_eq_of_perm _ l1 h1.symm (dedupeStore_keys_nodup i header.length rows)
    simp only [preprocess_dedupe_csv, hidx, emitLines, hs2]

/-! ### The bulk loader's row normalisation (`tasks.py` lines 245-267) -/

/-- `tasks.py` line 251: `orig_key.strip().strip(DQUOTE).strip(QUOTE).lower()`
(double then single quotes, then lowercase). -/
def cleanKey (s : String) : String :=
  pyLower (pyStripChar (Char.ofNat 39) (pyStripChar (Char.ofNat 34) (pyStrip s)))

/-- `csv.DictReader` row dict followed by the key normalisation of
`tasks.py` lines 246-252: pairs of cleaned header name and the value at
that column (`none` when the row is shorter than the header, the reader's
missing-value default).  Extra row fields beyond the header go to the
reader's `None` key and are dropped (lines 249-250). -/
def dictOf (header row : List String) : List (String × Option String) :=
  (List.range header.length).map (fun i => (cleanKey (header.getD i ""), row.get? i))

/-- `normalized.get(k)`: for duplicate cleaned keys the later assignment
wins (lines 248-252); a missing key and a `None` value are both returned
as `none` — every consumer below treats the two alike. -/
def dictGet (d : List (String × Option String)) (k : String) : Option String :=
  match d.reverse.find? (fun e => e.1 = k) with
  | some e => e.2
  | none => none

/-- `(normalized.get(k) or "")` for string-valued fields. -/
def getStr (d : List (String × Option String)) (k : String) : String :=
  (dictGet d k).getD ""

/-- Python `a or b` on an optional string: `None` and `""` are falsy. -/
def pyOr (a : Option String) (b : String) : String :=
  match a with
  | none => b
  | some s => if s = "" then b else s

/-- The value of a base-10 digit run. -/
def digitsVal (l : List Char) : Nat :=
  l.foldl (fun n c => 10 * n + (c.toNat - 48)) 0

/-- Modelled fragment of Python `float(s)`: an optional sign followed by a
plain decimal literal (`"12"`, `"-3.5"`, `".5"`, `"7."`).  The exponent,
underscore and infinity/nan forms Python also accepts do not occur in the
price data exercised by the claims and are treated as unparseable here. -/
def pyFloat (s : String) : Option Rat :=
  let body : Int × List Char :=
    match s.data with
    | '-' :: t => (-1, t)
    | '+' :: t => (1, t)
    | t => (1, t)
  let ip := body.2.takeWhile Char.isDigit
  let rest := body.2.drop ip.length
  match rest with
  | [] => if ip.isEmpty then none else some ((body.1 : Rat) * (digitsVal ip : Rat))
  | '.' :: fp =>
      if fp.all Char.isDigit ∧ ¬(ip.isEmpty ∧ fp.isEmpty) then
        some ((body.1 : Rat) *
          ((digitsVal ip : Rat) + (digitsVal fp : Rat) / ((10 : Rat) ^ fp.length)))
      else none
  | _ => none

/-- `tasks.py` line 261: strip whitespace, drop dollar signs, drop commas. -/
def stripPrice (s : String) : String :=
  pyRemoveChar ',' (pyRemoveChar '$' (pyStrip s))

/-- `tasks.py` lines 258-266: a falsy (missing or empty) price value and an
unparseable one map to `0.0`; otherwise the stripped string's parsed value
is used unchanged. -/
def normalizePrice (v : Option String) : Rat :=
  match v with
  | none => 0
  | some s =>
    if s = "" then 0
    else
      match pyFloat (stripPrice s) with
      | some q => q
      | none => 0

/-- `tasks.py` lines 217-226 and 267: `is_active` defaults to true when the
column is absent, the value is `None`, or the value is empty; textual
boolean variants are coerced.  In the source an unrecognised non-empty
string is passed through unchanged and later rejected by the database's
boolean parser during the bulk copy, failing the chunk — a path covered by
the pipeline's generic failure injection and exercised by no claim; it is
rendered `true` here. -/
def coerceActive (v : Option String) : Bool :=
  match v with
  | none => true
  | some s =>
    if s = "" then true
    else if pyLower (pyStrip s) ∈ ["true", "1", "yes", "y"] then true
    else if pyLower (pyStrip s) ∈ ["false", "0", "no", "n"] then false
    else true

/-- A typed product row: the staging and canonical column set
(`tasks.py` line 41, `models.py` lines 82-86). -/
structure PRow where
  sku : String
  name : String
  description : String
  price : Rat
  is_active : Bool
deriving Repr, DecidableEq

/-- `tasks.py` lines 245-267: one CSV row mapped to a typed staged row. -/
def mapRow (header : List String) (row : Row) : PRow :=
  let d := dictOf header row
  { sku := pyStrip (getStr d "sku")
    name := pyStrip (getStr d "name")
    description := pyStrip (pyOr (dictGet d "description") (pyOr (dictGet d "desc") ""))
    price := normalizePrice (dictGet d "price")
    is_active := coerceActive (dictGet d "is_active") }

/-! ### The streaming loop into staging (`tasks.py` lines 185-328) -/

/-- `tasks.py` line 186. -/
def batch_size : Nat := 50000

/-- Loop state of the streaming loop: the unflushed batch, the rows flushed
to staging so far, the `processed` and `skipped` counters, and the history
of values committed to the job's `processed_records` column. -/
structure LoopSt where
  batch : List PRow
  staged : List PRow
  processed : Nat
  skipped : Nat
  writes : List Nat
deriving Repr, DecidableEq

/-- One iteration of `for orig_row in reader` (`tasks.py` lines 245-303):
a row lacking SKU or name is counted as skipped and processed, with a
progress commit every 1000th processed row; a valid row joins the batch,
which is flushed to staging (with a progress commit) on reaching
`batch_size`. -/
def loaderStep (header : List String) (st : LoopSt) (row : Row) : LoopSt :=
  let m := mapRow header row
  if m.sku = "" ∨ m.name = "" then
    { st with
      skipped := st.skipped + 1
      processed := st.processed + 1
      writes :=
        if (st.processed + 1) % 1000 = 0 then st.writes ++ [st.processed + 1]
        else st.writes }
  else
    if batch_size ≤ (st.batch ++ [m]).length then
      { st with
        batch := []
        staged := st.staged ++ (st.batch ++ [m])
        processed := st.processed + (st.batch ++ [m]).length
        writes := st.writes ++ [st.processed + (st.batch ++ [m]).length] }
    else { st with batch := st.batch ++ [m] }

/-- Result of the streaming stage. -/
structure LoaderRes where
  staged : List PRow
  processed : Nat
  skipped : Nat
  writes : List Nat
deriving Repr, DecidableEq

/-- The full streaming loop plus the final-batch flush and progress commit
(`tasks.py` lines 191-328). -/
def streamToStaging (header : List String) (rows : List Row) : LoaderRes :=
  let s := rows.foldl (loaderStep header) ⟨[], [], 0, 0, []⟩
  if s.batch.isEmpty then ⟨s.staged, s.processed, s.skipped, s.writes⟩
  else
    ⟨s.staged ++ s.batch, s.processed + s.batch.length, s.skipped,
      s.writes ++ [s.processed + s.batch.length]⟩

/-! ### The merge engine (`tasks.py` lines 89-105) -/

/-- The `DO UPDATE SET name = EXCLUDED.name, description = ..., price = ...,
is_active = ...` assignment (`tasks.py` lines 95-101): the key column is
untouched, every non-key column takes the staged row's value. -/
def updWith (s p : PRow) : PRow :=
  if p.sku = s.sku then
    { p with name := s.name, description := s.description,
             price := s.price, is_active := s.is_active }
  else p

/-- The effect of the upsert for one staged row: `ON CONFLICT (sku) DO
UPDATE SET` every non-key column to the staged (`EXCLUDED`) value when a
canonical row with that exact `sku` exists (the unique index on `sku`,
`models.py` line 82), otherwise insert the staged row. -/
def mergeOne (main : List PRow) (s : PRow) : List PRow :=
  if s.sku ∈ main.map PRow.sku then main.map (updWith s)
  else main ++ [s]

/-- `merge_staging_to_main` (`tasks.py` lines 89-105): a single
`INSERT ... SELECT ... FROM products_staging ON CONFLICT (sku) DO UPDATE`
statement.  The fold order over staging rows is immaterial because staging
SKUs are pairwise distinct (deduplicated upstream) — which is also what
makes the single statement well-defined in PostgreSQL. -/
def merge_staging_to_main (main staging : List PRow) : List PRow :=
  staging.foldl mergeOne main

/-! ### Merge-engine lemmas (claim C1) -/

theorem updWith_sku (s p : PRow) : (updWith s p).sku = p.sku := by
  unfold updWith
  split_ifs <;> rfl

theorem mergeOne_map_sku (main : List PRow) (s : PRow) :
    (mergeOne main s).map PRow.sku =
      if s.sku ∈ main.map PRow.sku then main.map PRow.sku
      else main.map PRow.sku ++ [s.sku] := by
  unfold mergeOne
  split_ifs with h
  · rw [List.map_map]
    exact List.map_congr_left (fun p _ => updWith_sku s p)
  · simp

theorem mergeOne_nodup (main : List PRow) (s : PRow)
    (h : (main.map PRow.sku).Nodup) : ((mergeOne main s).map PRow.sku).Nodup := by
  rw [mergeOne_map_sku]
  split_ifs with hc
  · exact h
  · simp [List.nodup_append, h, hc]

theorem filter_map_updWith_of_not_mem (t : List PRow) (s : PRow)
    (h : s.sku ∉ t.map PRow.sku) :
    (t.map (updWith s)).filter (fun p => p.sku = s.sku) = [] := by
  refine List.filter_eq_nil_iff.mpr ?_
  intro x hx hpx
  obtain ⟨p, hp, rfl⟩ := List.mem_map.mp hx
  simp only [updWith_sku, decide_eq_true_eq] at hpx
  exact h (hpx ▸ List.mem_map_of_mem PRow.sku hp)

theorem filter_of_not_mem_sku (t : List PRow) (k : String)
    (h : k ∉ t.map PRow.sku) : t.filter (fun p => p.sku = k) = [] := by
  refine List.filter_eq_nil_iff.mpr ?_
  intro x hx hpx
  simp only [decide_eq_true_eq] at hpx
  exact h (hpx ▸ List.mem_map_of_mem PRow.sku hx)

theorem filter_mergeOne_self (main : List PRow) (s : PRow)
    (h : (main.map PRow.sku).Nodup) :
    (mergeOne main s).filter (fun p => p.sku = s.sku) = [s] := by
  unfold mergeOne
  split_ifs with hc
  · induction main with
    | nil => simp at hc
    | cons p t ih =>
      rw [List.map_cons, List.nodup_cons] at h
      rcases List.mem_cons.mp hc with hps | hct
      · rw [List.map_cons, List.filter_cons_of_pos (by simp [updWith_sku, hps])]
        rw [filter_map_updWith_of_not_mem t s (by rw [hps]; exact h.1)]
        have hupd : updWith s p = s := by
          unfold updWith
          rw [if_pos hps.symm]
          rw [show p.sku = s.sku from hps.symm]
        rw [hupd]
      · have hps : p.sku ≠ s.sku := fun he => h.1 (he ▸ hct)
        rw [List.map_cons, List.filter_cons_of_neg (by simp [updWith_sku, hps])]
        exact ih h.2 hct
  · rw [List.filter_append, filter_of_not_mem_sku main s.sku hc]
    simp

theorem filter_mergeOne_other (main : List PRow) (s : PRow) (k : String)
    (hk : k ≠ s.sku) :
    (mergeOne main s).filter (fun p => p.sku = k)
      = main.filter (fun p => p.sku = k) := by
  unfold mergeOne
  split_ifs with hc
  · clear hc
    induction main with
    | nil => rfl
    | cons p t ih =>
      rw [List.map_cons]
      by_cases hp : p.sku = k
      · rw [List.filter_cons_of_pos (by simp [updWith_sku, hp]),
          List.filter_cons_of_pos (by simp [hp]), ih]
        congr 1
        unfold updWith
        rw [if_neg (by rw [hp]; exact hk)]
      · rw [List.filter_cons_of_neg (by simp [updWith_sku, hp]),
          List.filter_cons_of_neg (by simp [hp]), ih]
  · rw [List.filter_append, List.filter_cons_of_neg (by simp; exact fun h => hk h.symm)]
    simp

theorem mergeOne_mem_of_ne (main : List PRow) (s p : PRow) (hp : p ∈ main)
    (hne : p.sku ≠ s.sku) : p ∈ mergeOne main s := by
  unfold mergeOne
  split_ifs
  · have hid : updWith s p = p := by unfold updWith; rw [if_neg hne]
    exact hid ▸ List.mem_map_of_mem (updWith s) hp
  · exact List.mem_append_left _ hp

theorem merge_filter_untouched (staging : List PRow) (main : List PRow) (k : String)
    (hk : k ∉ staging.map PRow.sku) :
    (merge_staging_to_main main staging).filter (fun p => p.sku = k)
      = main.filter (fun p => p.sku = k) := by
  induction staging generalizing main with
  | nil => rfl
  | cons s t ih =>
    rw [List.map_cons, List.mem_cons] at hk
    push_neg at hk
    have h1 : merge_staging_to_main main (s :: t)
        = merge_staging_to_main (mergeOne main s) t := rfl
    rw [h1, ih (mergeOne main s) hk.2, filter_mergeOne_other main s k hk.1]

/-- C1: the merge step is a set-based upsert keyed on (exact) SKU: after the
merge, each staged row `s` is the unique canonical row carrying its SKU —
newly inserted when the SKU was absent, otherwise the existing row with all
non-key columns overwritten by `s` — and canonical rows whose SKU is not
staged survive untouched. -/
theorem merge_upsert (main staging : List PRow)
    (hmain : (main.map PRow.sku).Nodup) (hstag : (staging.map PRow.sku).Nodup) :
    (∀ s ∈ staging,
      (merge_staging_to_main main staging).filter (fun p => p.sku = s.sku) = [s]) ∧
    (∀ p ∈ main, p.sku ∉ staging.map PRow.sku →
      p ∈ merge_staging_to_main main staging) := by
  induction staging generalizing main with
  | nil => exact ⟨by simp, fun p hp _ => hp⟩
  | cons s t ih =>
    rw [List.map_cons, List.nodup_cons] at hstag
    have h1 : merge_staging_to_main main (s :: t)
        = merge_staging_to_main (mergeOne main s) t := rfl
    obtain ⟨iht1, iht2⟩ := ih (mergeOne main s) (mergeOne_nodup main s hmain) hstag.2
    constructor
    · intro x hx
      rcases List.mem_cons.mp hx with rfl | hxt
      · rw [h1, merge_filter_untouched t (mergeOne main x) x.sku hstag.1,
          filter_mergeOne_self main x hmain]
      · rw [h1]
        exact iht1 x hxt
    · intro p hp hpk
      rw [List.map_cons, List.mem_cons] at hpk
      push_neg at hpk
      rw [h1]
      exact iht2 p (mergeOne_mem_of_ne main s p hp hpk.1) hpk.2

/-! ### Streaming-loop invariants (claims C3, C4, C8) -/

theorem chain_append_le (l : List Nat) (x : Nat) (hc : l.Chain' (· ≤ ·))
    (hb : ∀ w ∈ l, w ≤ x) : (l ++ [x]).Chain' (· ≤ ·) := by
  rw [List.chain'_append]
  refine ⟨hc, List.chain'_singleton x, ?_⟩
  intro a ha b hb2
  simp only [List.head?_cons, Option.mem_def, Option.some.injEq] at hb2
  subst hb2
  exact hb a (List.mem_of_mem_getLast? ha)

/-- The loop invariant: the committed progress values form a non-decreasing
chain bounded by the current `processed` counter, and `processed` counts
exactly the skipped rows plus the rows flushed to staging. -/
def LoopInv (st : LoopSt) : Prop :=
  st.writes.Chain' (· ≤ ·) ∧ (∀ w ∈ st.writes, w ≤ st.processed) ∧
  st.processed = st.skipped + st.staged.length

theorem loaderStep_inv (header : List String) (st : LoopSt) (row : Row)
    (h : LoopInv st) : LoopInv (loaderStep header st row) := by
  obtain ⟨hc, hb, hacc⟩ := h
  simp only [loaderStep]
  by_cases hskip : (mapRow header row).sku = "" ∨ (mapRow header row).name = ""
  · rw [if_pos hskip]
    refine ⟨?_, ?_, ?_⟩
    · dsimp only
      by_cases hmod : (st.processed + 1) % 1000 = 0
      · rw [if_pos hmod]
        exact chain_append_le _ _ hc (fun w hw => Nat.le_succ_of_le (hb w hw))
      · rw [if_neg hmod]
        exact hc
    · dsimp only
      intro w hw
      by_cases hmod : (st.processed + 1) % 1000 = 0
      · rw [if_pos hmod] at hw
        rcases List.mem_append.mp hw with h1 | h2
        · exact Nat.le_succ_of_le (hb w h1)
        · simp only [List.mem_singleton] at h2
          omega
      · rw [if_neg hmod] at hw
        exact Nat.le_succ_of_le (hb w hw)
    · dsimp only
      omega
  · rw [if_neg hskip]
    by_cases hflush : batch_size ≤ (st.batch ++ [mapRow header row]).length
    · rw [if_pos hflush]
      refine ⟨?_, ?_, ?_⟩
      · dsimp only
        exact chain_append_le _ _ hc
          (fun w hw => le_trans (hb w hw) (Nat.le_add_right _ _))
      · dsimp only
        intro w hw
        rcases List.mem_append.mp hw with h1 | h2
        · exact le_trans (hb w h1) (Nat.le_add_right _ _)
        · simp only [List.mem_singleton] at h2
          omega
      · dsimp only
        simp only [List.length_append, List.length_cons, List.length_nil]
        omega
    · rw [if_neg hflush]
      exact ⟨hc, hb, hacc⟩

theorem loaderStep_count (header : List String) (st : LoopSt) (row : Row) :
    (loaderStep header st row).processed + (loaderStep header st row).batch.length
      = st.processed + st.batch.length + 1 := by
  simp only [loaderStep]
  by_cases hskip : (mapRow header row).sku = "" ∨ (mapRow header row).name = ""
  · rw [if_pos hskip]
    dsimp only
    omega
  · rw [if_neg hskip]
    by_cases hflush : batch_size ≤ (st.batch ++ [mapRow header row]).length
    · rw [if_pos hflush]
      dsimp only
      simp only [List.length_append, List.length_cons, List.length_nil] at hflush ⊢
      omega
    · rw [if_neg hflush]
      dsimp only
      simp only [List.length_append, List.length_cons, List.length_nil] at hflush ⊢
      omega

theorem loader_foldl_inv (header : List String) (rows : List Row) :
    ∀ st : LoopSt, LoopInv st →
      LoopInv (rows.foldl (loaderStep header) st) ∧
      (rows.foldl (loaderStep header) st).processed
          + (rows.foldl (loaderStep header) st).batch.length
        = st.processed + st.batch.length + rows.length := by
  induction rows with
  | nil => exact fun st h => ⟨h, by simp⟩
  | cons r t ih =>
    intro st h
    rw [List.foldl_cons]
    obtain ⟨h1, h2⟩ := ih (loaderStep header st r) (loaderStep_inv header st r h)
    refine ⟨h1, ?_⟩
    rw [h2, loaderStep_count header st r, List.length_cons]
    omega

/-- Summary of the streaming stage: progress commits are non-decreasing and
bounded by the final `processed`, which equals the number of deduplicated
data rows, and which splits into skipped rows plus rows landed in staging. -/
theorem streamToStaging_spec (header : List String) (rows : List Row) :
    (streamToStaging header rows).writes.Chain' (· ≤ ·) ∧
    (∀ w ∈ (streamToStaging header rows).writes,
      w ≤ (streamToStaging header rows).processed) ∧
    (streamToStaging header rows).processed = rows.length ∧
    (streamToStaging header rows).processed
      = (streamToStaging header rows).skipped
        + (streamToStaging header rows).staged.length := by
  obtain ⟨⟨hc, hb, hacc⟩, hcount⟩ :=
    loader_foldl_inv header rows ⟨[], [], 0, 0, []⟩ ⟨List.chain'_nil, by simp, rfl⟩
  simp only [streamToStaging]
  by_cases hbat : (rows.foldl (loaderStep header) ⟨[], [], 0, 0, []⟩).batch.isEmpty
  · have hlen : (rows.foldl (loaderStep header) ⟨[], [], 0, 0, []⟩).batch.length = 0 := by
      rw [List.isEmpty_iff] at hbat
      rw [hbat]
      rfl
    rw [if_pos hbat]
    refine ⟨hc, hb, ?_, hacc⟩
    dsimp only at hcount ⊢
    simp only [List.length_nil] at hcount
    omega
  · rw [if_neg hbat]
    refine ⟨?_, ?_, ?_, ?_⟩
    · dsimp only
      exact chain_append_le _ _ hc
        (fun w hw => le_trans (hb w hw) (Nat.le_add_right _ _))
    · dsimp only
      intro w hw
      rcases List.mem_append.mp hw with h1 | h2
      · exact le_trans (hb w h1) (Nat.le_add_right _ _)
      · simp only [List.mem_singleton] at h2
        omega
    · dsimp only at hcount ⊢
      simp only [List.length_nil] at hcount
      omega
    · dsimp only
      simp only [List.length_append]
      omega

/-! ### The import pipeline (`tasks.py` lines 108-404) -/

/-- `models.py` lines 60-66. -/
inductive ImportStatus
  | pending
  | parsing
  | validating
  | importing
  | completed
  | failed
deriving Repr, DecidableEq

/-- The `ImportJob` columns the pipeline logic reads or writes
(`models.py` lines 98-122).  The `processed_records` column always holds
the last committed progress value; the model keeps the committed history
(in `SysSt.processedWrites`) and materialises the final value on the
completion commit, which is the only point a claim reads it. -/
structure ImportJob where
  status : ImportStatus
  total_records : Nat
  processed_records : Nat
  error_message : Option String
deriving Repr, DecidableEq

/-- The persistent state the pipeline touches: the job row for the invoked
id (`none` when no such job exists), the staging table, the canonical
`products` table, and the observed histories of values committed to the
job's `status` and `processed_records` columns. -/
structure SysSt where
  job : Option ImportJob
  staging : List PRow
  products : List PRow
  statusWrites : List ImportStatus
  processedWrites : List Nat
deriving Repr, DecidableEq

/-- A committed status update (`import_job.status = ...; db.commit()`). -/
def setStatus (st : SysSt) (s : ImportStatus) : SysSt :=
  match st.job with
  | none => st
  | some j =>
      { st with job := some { j with status := s },
                statusWrites := st.statusWrites ++ [s] }

/-- The `except` handler (`tasks.py` lines 378-389): when the job row was
loaded, record `failed` plus the exception text. -/
def failJob (st : SysSt) (msg : String) : SysSt :=
  match st.job with
  | none => st
  | some j =>
      { st with
        job := some { j with status := .failed, error_message := some msg },
        statusWrites := st.statusWrites ++ [ImportStatus.failed] }

/-- `tasks.py` lines 175-178: one commit sets `total_records` and moves the
status to `validating`. -/
def setTotalValidating (st : SysSt) (n : Nat) : SysSt :=
  match st.job with
  | none => st
  | some j =>
      { st with
        job := some { j with total_records := n, status := .validating },
        statusWrites := st.statusWrites ++ [ImportStatus.validating] }

/-- `tasks.py` lines 338-348: the completion commit sets the final
`processed_records`, re-sets `total_records`, and moves to `completed`. -/
def finalizeCompleted (st : SysSt) (processed total : Nat) : SysSt :=
  match st.job with
  | none => st
  | some j =>
      { st with
        job := some { j with status := .completed, total_records := total,
                             processed_records := processed },
        statusWrites := st.statusWrites ++ [ImportStatus.completed],
        processedWrites := st.processedWrites ++ [processed] }

/-- The data rows of the deduplicated file when the SKU column is at `i`. -/
def dedupedRows (header : List String) (rows : List Row) (i : Nat) : List Row :=
  (sortStore (dedupeStore i header.length rows)).map Prod.snd

/-- `process_csv_import` (`tasks.py` lines 108-404).  `failAt` injects an
exception at the numbered step — every step inside the big `try` (steps
1-10) can raise in the source (database connectivity, file I/O, bulk-copy
rejection); a value outside 0-10 means no step raises.  A failing step has
no state effect (each database step here is a single statement or
transaction), and the handler then records the failure on the job row.
Steps: 0 job lookup (line 126), 1 parsing commit (133-135), 2 preprocess
(140), 3 staging recreate+truncate (144-145), 4 record count + validating
commit (148-178), 5 importing commit (181-183), 6 streaming loop (185-328),
7 merge (333), 8 completion commit (338-348), 9 staging truncate (358),
10 webhook dispatch (361-376, no modelled state effect).  A failure at the
job lookup itself (step 0) leaves `import_job` unset, so the handler
records nothing. -/
def process_csv_import (failAt : Option Nat) (header : List String)
    (rows : List Row) (st : SysSt) : SysSt :=
  if failAt = some 0 then st
  else
    match st.job with
    | none => st
    | some _ =>
      if failAt = some 1 then failJob st "error" else
      let st1 := setStatus st .parsing
      if failAt = some 2 then failJob st1 "error" else
      match preprocess_dedupe_csv header rows with
      | .error e => failJob st1 e
      | .ok lines =>
        let dh := lines.headD []
        let drows := lines.tail
        if failAt = some 3 then failJob st1 "error" else
        let st2 := { st1 with staging := [] }
        if failAt = some 4 then failJob st2 "error" else
        let st3 := setTotalValidating st2 drows.length
        if failAt = some 5 then failJob st3 "error" else
        let st4 := setStatus st3 .importing
        if failAt = some 6 then failJob st4 "error" else
        let L := streamToStaging dh drows
        let st5 := { st4 with staging := st4.staging ++ L.staged,
                              processedWrites := st4.processedWrites ++ L.writes }
        if failAt = some 7 then failJob st5 "error" else
        let st6 := { st5 with
                     products := merge_staging_to_main st5.products st5.staging }
        if failAt = some 8 then failJob st6 "error" else
        let st7 := finalizeCompleted st6 L.processed drows.length
        if failAt = some 9 then failJob st7 "error" else
        let st8 := { st7 with staging := [] }
        if failAt = some 10 then failJob st8 "error" else
        st8

/-! ### Reduction lemmas for each exit path of the pipeline -/

theorem preprocess_ok (header : List String) (rows : List Row) (i : Nat)
    (hp : findSkuIdx header = some i) :
    preprocess_dedupe_csv header rows = .ok (header :: dedupedRows header rows i) := by
  simp [preprocess_dedupe_csv, hp, emitLines, dedupedRows]

theorem preprocess_err (header : List String) (rows : List Row)
    (hp : findSkuIdx header = none) :
    preprocess_dedupe_csv header rows
      = .error "Could not find SKU column in CSV header." := by
  simp [preprocess_dedupe_csv, hp]

theorem run_notfound (failAt : Option Nat) (header : List String) (rows : List Row)
    (st : SysSt) (hj : st.job = none) :
    process_csv_import failAt header rows st = st := by
  unfold process_csv_import
  rw [hj]
  exact ite_self st

theorem run_at0 (header : List String) (rows : List Row) (st : SysSt) :
    process_csv_import (some 0) header rows st = st := rfl

theorem run_at1 (header : List String) (rows : List Row) (j : ImportJob)
    (stg prods : List PRow) :
    process_csv_import (some 1) header rows ⟨some j, stg, prods, [], []⟩
      = ⟨some { j with
            status := .failed
            error_message := some "error" },
         stg, prods, [.failed], []⟩ := rfl

theorem run_at2 (header : List String) (rows : List Row) (j : ImportJob)
    (stg prods : List PRow) :
    process_csv_import (some 2) header rows ⟨some j, stg, prods, [], []⟩
      = ⟨some { j with
            status := .failed
            error_message := some "error" },
         stg, prods, [.parsing, .failed], []⟩ := rfl

theorem run_err (failAt : Option Nat) (header : List String) (rows : List Row)
    (j : ImportJob) (stg prods : List PRow) (hp : findSkuIdx header = none)
    (h0 : failAt ≠ some 0) (h1 : failAt ≠ some 1) (h2 : failAt ≠ some 2) :
    process_csv_import failAt header rows ⟨some j, stg, prods, [], []⟩
      = ⟨some { j with
            status := .failed
            error_message := some "Could not find SKU column in CSV header." },
         stg, prods, [.parsing, .failed], []⟩ := by
  unfold process_csv_import
  rw [if_neg h0]
  show (if failAt = some 1 then _ else _) = _
  rw [if_neg h1, preprocess_err header rows hp]
  show (if failAt = some 2 then _ else _) = _
  rw [if_neg h2]
  rfl

theorem run_at3 (header : List String) (rows : List Row) (i : Nat) (j : ImportJob)
    (stg prods : List PRow) (hp : findSkuIdx header = some i) :
    process_csv_import (some 3) header rows ⟨some j, stg, prods, [], []⟩
      = ⟨some { j with
            status := .failed
            error_message := some "error" },
         stg, prods, [.parsing, .failed], []⟩ := by
  unfold process_csv_import
  rw [preprocess_ok header rows i hp]
  rfl

theorem run_at4 (header : List String) (rows : List Row) (i : Nat) (j : ImportJob)
    (stg prods : List PRow) (hp : findSkuIdx header = some i) :
    process_csv_import (some 4) header rows ⟨some j, stg, prods, [], []⟩
      = ⟨some { j with
            status := .failed
            error_message := some "error" },
         [], prods, [.parsing, .failed], []⟩ := by
  unfold process_csv_import
  rw [preprocess_ok header rows i hp]
  rfl

theorem run_at5 (header : List String) (rows : List Row) (i : Nat) (j : ImportJob)
    (stg prods : List PRow) (hp : findSkuIdx header = some i) :
    process_csv_import (some 5) header rows ⟨some j, stg, prods, [], []⟩
      = ⟨some { j with
            status := .failed
            total_records := (dedupedRows header rows i).length
            error_message := some "error" },
         [], prods, [.parsing, .validating, .failed], []⟩ := by
  unfold process_csv_import
  rw [preprocess_ok header rows i hp]
  rfl

theorem run_at6 (header : List String) (rows : List Row) (i : Nat) (j : ImportJob)
    (stg prods : List PRow) (hp : findSkuIdx header = some i) :
    process_csv_import (some 6) header rows ⟨some j, stg, prods, [], []⟩
      = ⟨some { j with
            status := .failed
            total_records := (dedupedRows header rows i).length
            error_message := some "error" },
         [], prods, [.parsing, .validating, .importing, .failed], []⟩ := by
  unfold process_csv_import
  rw [preprocess_ok header rows i hp]
  rfl

theorem run_at7 (header : List String) (rows : List Row) (i : Nat) (j : ImportJob)
    (stg prods : List PRow) (hp : findSkuIdx header = some i) :
    process_csv_import (some 7) header rows ⟨some j, stg, prods, [], []⟩
      = ⟨some { j with
            status := .failed
            total_records := (dedupedRows header rows i).length
            error_message := some "error" },
         (streamToStaging header (dedupedRows header rows i)).staged, prods,
         [.parsing, .validating, .importing, .failed],
         (streamToStaging header (dedupedRows header rows i)).writes⟩ := by
  unfold process_csv_import
  rw [preprocess_ok header rows i hp]
  rfl

theorem run_at8 (header : List String) (rows : List Row) (i : Nat) (j : ImportJob)
    (stg prods : List PRow) (hp : findSkuIdx header = some i) :
    process_csv_import (some 8) header rows ⟨some j, stg, prods, [], []⟩
      = ⟨some { j with
            status := .failed
            total_records := (dedupedRows header rows i).length
            error_message := some "error" },
         (streamToStaging header (dedupedRows header rows i)).staged,
         merge_staging_to_main prods
           (streamToStaging header (dedupedRows header rows i)).staged,
         [.parsing, .validating, .importing, .failed],
         (streamToStaging header (dedupedRows header rows i)).writes⟩ := by
  unfold process_csv_import
  rw [preprocess_ok header rows i hp]
  rfl

theorem run_at9 (header : List String) (rows : List Row) (i : Nat) (j : ImportJob)
    (stg prods : List PRow) (hp : findSkuIdx header = some i) :
    process_csv_import (some 9) header rows ⟨some j, stg, prods, [], []⟩
      = ⟨some { j with
            status := .failed
            total_records := (dedupedRows header rows i).length
            processed_records := (streamToStaging header (dedupedRows header rows i)).processed
            error_message := some "error" },
         (streamToStaging header (dedupedRows header rows i)).staged,
         merge_staging_to_main prods
           (streamToStaging header (dedupedRows header rows i)).staged,
         [.parsing, .validating, .importing, .completed, .failed],
         (streamToStaging header (dedupedRows header rows i)).writes
           ++ [(streamToStaging header (dedupedRows header rows i)).processed]⟩ := by
  unfold process_csv_import
  rw [preprocess_ok header rows i hp]
  rfl

theorem run_at10 (header : List String) (rows : List Row) (i : Nat) (j : ImportJob)
    (stg prods : List PRow) (hp : findSkuIdx header = some i) :
    process_csv_import (some 10) header rows ⟨some j, stg, prods, [], []⟩
      = ⟨some { j with
            status := .failed
            total_records := (dedupedRows header rows i).length
            processed_records := (streamToStaging header (dedupedRows header rows i)).processed
            error_message := some "error" },
         [],
         merge_staging_to_main prods
           (streamToStaging header (dedupedRows header rows i)).staged,
         [.parsing, .validating, .importing, .completed, .failed],
         (streamToStaging header (dedupedRows header rows i)).writes
           ++ [(streamToStaging header (dedupedRows header rows i)).processed]⟩ := by
  unfold process_csv_import
  rw [preprocess_ok header rows i hp]
  rfl

theorem run_success (failAt : Option Nat) (header : List String) (rows : List Row)
    (i : Nat) (j : ImportJob) (stg prods : List PRow)
    (hp : findSkuIdx header = some i) (hnot : ∀ k, k ≤ 10 → failAt ≠ some k) :
    process_csv_import failAt header rows ⟨some j, stg, prods, [], []⟩
      = ⟨some { j with
            status := .completed
            total_records := (dedupedRows header rows i).length
            processed_records := (streamToStaging header (dedupedRows header rows i)).processed },
         [],
         merge_staging_to_main prods
           (streamToStaging header (dedupedRows header rows i)).staged,
         [.parsing, .validating, .importing, .completed],
         (streamToStaging header (dedupedRows header rows i)).writes
           ++ [(streamToStaging header (dedupedRows header rows i)).processed]⟩ := by
  unfold process_csv_import
  rw [if_neg (hnot 0 (by omega))]
  show (if failAt = some 1 then _ else _) = _
  rw [if_neg (hnot 1 (by omega)), preprocess_ok header rows i hp]
  show (if failAt = some 2 then _ else _) = _
  rw [if_neg (hnot 2 (by omega))]
  show (if failAt = some 3 then _ else _) = _
  rw [if_neg (hnot 3 (by omega))]
  show (if failAt = some 4 then _ else _) = _
  rw [if_neg (hnot 4 (by omega))]
  show (if failAt = some 5 then _ else _) = _
  rw [if_neg (hnot 5 (by omega))]
  show (if failAt = some 6 then _ else _) = _
  rw [if_neg (hnot 6 (by omega))]
  show (if failAt = some 7 then _ else _) = _
  rw [if_neg (hnot 7 (by omega))]
  show (if failAt = some 8 then _ else _) = _
  rw [if_neg (hnot 8 (by omega))]
  show (if failAt = some 9 then _ else _) = _
  rw [if_neg (hnot 9 (by omega))]
  show (if failAt = some 10 then _ else _) = _
  rw [if_neg (hnot 10 (by omega))]
  rfl

/-- Complete case analysis of one pipeline run on a found job: every
execution, whatever step fails (or none), lands in one of these end
states. -/
theorem process_cases (failAt : Option Nat) (header : List String) (rows : List Row)
    (j : ImportJob) (stg prods : List PRow) :
    process_csv_import failAt header rows ⟨some j, stg, prods, [], []⟩
        = ⟨some j, stg, prods, [], []⟩
    ∨ (∃ m, process_csv_import failAt header rows ⟨some j, stg, prods, [], []⟩
        = ⟨some { j with status := .failed, error_message := some m },
           stg, prods, [.failed], []⟩)
    ∨ (∃ m, process_csv_import failAt header rows ⟨some j, stg, prods, [], []⟩
        = ⟨some { j with status := .failed, error_message := some m },
           stg, prods, [.parsing, .failed], []⟩)
    ∨ (∃ i m, findSkuIdx header = some i ∧
        process_csv_import failAt header rows ⟨some j, stg, prods, [], []⟩
        = ⟨some { j with status := .failed, error_message := some m },
           [], prods, [.parsing, .failed], []⟩)
    ∨ (∃ i m, findSkuIdx header = some i ∧
        process_csv_import failAt header rows ⟨some j, stg, prods, [], []⟩
        = ⟨some { j with
              status := .failed
              total_records := (dedupedRows header rows i).length
              error_message := some m },
           [], prods, [.parsing, .validating, .failed], []⟩)
    ∨ (∃ i m, findSkuIdx header = some i ∧
        process_csv_import failAt header rows ⟨some j, stg, prods, [], []⟩
        = ⟨some { j with
              status := .failed
              total_records := (dedupedRows header rows i).length
              error_message := some m },
           [], prods, [.parsing, .validating, .importing, .failed], []⟩)
    ∨ (∃ i m, findSkuIdx header = some i ∧
        process_csv_import failAt header rows ⟨some j, stg, prods, [], []⟩
        = ⟨some { j with
              status := .failed
              total_records := (dedupedRows header rows i).length
              error_message := some m },
           (streamToStaging header (dedupedRows header rows i)).staged, prods,
           [.parsing, .validating, .importing, .failed],
           (streamToStaging header (dedupedRows header rows i)).writes⟩)
    ∨ (∃ i m, findSkuIdx header = some i ∧
        process_csv_import failAt header rows ⟨some j, stg, prods, [], []⟩
        = ⟨some { j with
              status := .failed
              total_records := (dedupedRows header rows i).length
              error_message := some m },
           (streamToStaging header (dedupedRows header rows i)).staged,
           merge_staging_to_main prods
             (streamToStaging header (dedupedRows header rows i)).staged,
           [.parsing, .validating, .importing, .failed],
           (streamToStaging header (dedupedRows header rows i)).writes⟩)
    ∨ (∃ i m, findSkuIdx header = some i ∧
        process_csv_import failAt header rows ⟨some j, stg, prods, [], []⟩
        = ⟨some { j with
              status := .failed
              total_records := (dedupedRows header rows i).length
              processed_records := (streamToStaging header (dedupedRows header rows i)).processed
              error_message := some m },
           (streamToStaging header (dedupedRows header rows i)).staged,
           merge_staging_to_main prods
             (streamToStaging header (dedupedRows header rows i)).staged,
           [.parsing, .validating, .importing, .completed, .failed],
           (streamToStaging header (dedupedRows header rows i)).writes
             ++ [(streamToStaging header (dedupedRows header rows i)).processed]⟩)
    ∨ (∃ i m, findSkuIdx header = some i ∧
        process_csv_import failAt header rows ⟨some j, stg, prods, [], []⟩
        = ⟨some { j with
              status := .failed
              total_records := (dedupedRows header rows i).length
              processed_records := (streamToStaging header (dedupedRows header rows i)).processed
              error_message := some m },
           [],
           merge_staging_to_main prods
             (streamToStaging header (dedupedRows header rows i)).staged,
           [.parsing, .validating, .importing, .completed, .failed],
           (streamToStaging header (dedupedRows header rows i)).writes
             ++ [(streamToStaging header (dedupedRows header rows i)).processed]⟩)
    ∨ (∃ i, findSkuIdx header = some i ∧
        process_csv_import failAt header rows ⟨some j, stg, prods, [], []⟩
        = ⟨some { j with
              status := .completed
              total_records := (dedupedRows header rows i).length
              processed_records := (streamToStaging header (dedupedRows header rows i)).processed },
           [],
           merge_staging_to_main prods
             (streamToStaging header (dedupedRows header rows i)).staged,
           [.parsing, .validating, .importing, .completed],
           (streamToStaging header (dedupedRows header rows i)).writes
             ++ [(streamToStaging header (dedupedRows header rows i)).processed]⟩) := by
  by_cases h0 : failAt = some 0
  · subst h0
    exact Or.inl (run_at0 header rows _)
  by_cases h1 : failAt = some 1
  · subst h1
    exact Or.inr (Or.inl ⟨"error", run_at1 header rows j stg prods⟩)
  by_cases h2 : failAt = some 2
  · subst h2
    exact Or.inr (Or.inr (Or.inl ⟨"error", run_at2 header rows j stg prods⟩))
  cases hp : findSkuIdx header with
  | none =>
    exact Or.inr (Or.inr (Or.inl ⟨"Could not find SKU column in CSV header.",
      run_err failAt header rows j stg prods hp h0 h1 h2⟩))
  | some i =>
    by_cases h3 : failAt = some 3
    · subst h3
      exact Or.inr (Or.inr (Or.inl ⟨"error", run_at3 header rows i j stg prods hp⟩))
    by_cases h4 : failAt = some 4
    · subst h4
      exact Or.inr (Or.inr (Or.inr (Or.inl ⟨i, "error", rfl,
        run_at4 header rows i j stg prods hp⟩)))
    by_cases h5 : failAt = some 5
    · subst h5
      exact Or.inr (Or.inr (Or.inr (Or.inr (Or.inl ⟨i, "error", rfl,
        run_at5 header rows i j stg prods hp⟩))))
    by_cases h6 : failAt = some 6
    · subst h6
      exact Or.inr (Or.inr (Or.inr (Or.inr (Or.inr (Or.inl ⟨i, "error", rfl,
        run_at6 header rows i j stg prods hp⟩)))))
    by_cases h7 : failAt = some 7
    · subst h7
      exact Or.inr (Or.inr (Or.inr (Or.inr (Or.inr (Or.inr (Or.inl ⟨i, "error", rfl,
        run_at7 header rows i j stg prods hp⟩))))))
    by_cases h8 : failAt = some 8
    · subst h8
      exact Or.inr (Or.inr (Or.inr (Or.inr (Or.inr (Or.inr (Or.inr (Or.inl ⟨i, "error",
        rfl, run_at8 header rows i j stg prods hp⟩)))))))
    by_cases h9 : failAt = some 9
    · subst h9
      exact Or.inr (Or.inr (Or.inr (Or.inr (Or.inr (Or.inr (Or.inr (Or.inr (Or.inl
        ⟨i, "error", rfl, run_at9 header rows i j stg prods hp⟩))))))))
    by_cases h10 : failAt = some 10
    · subst h10
      exact Or.inr (Or.inr (Or.inr (Or.inr (Or.inr (Or.inr (Or.inr (Or.inr (Or.inr
        (Or.inl ⟨i, "error", rfl, run_at10 header rows i j stg prods hp⟩)))))))))
    · have hnot : ∀ k, k ≤ 10 → failAt ≠ some k := by
        intro k hk
        interval_cases k <;> assumption
      exact Or.inr (Or.inr (Or.inr (Or.inr (Or.inr (Or.inr (Or.inr (Or.inr (Or.inr
        (Or.inr ⟨i, rfl, run_success failAt header rows i j stg prods hp hnot⟩)))))))))

/-! ### Claim theorems: job lifecycle (C6, C7, C8, C10) -/

/-- The forward prefixes of the status order
`parsing → validating → importing → completed`. -/
def okPrefix (n : Nat) : List ImportStatus :=
  [ImportStatus.parsing, ImportStatus.validating, ImportStatus.importing,
    ImportStatus.completed].take n

/-- A status write sequence that only moves forward through the state
machine order, possibly ending in one trailing `failed` write. -/
def ForwardStatuses (ws : List ImportStatus) : Prop :=
  ∃ n, n ≤ 4 ∧ (ws = okPrefix n ∨ ws = okPrefix n ++ [ImportStatus.failed])

/-- C7 (amended): over every execution — whichever step fails, if any — the
sequence of status values committed for the job is a forward prefix of
`parsing, validating, importing, completed`, optionally ended by a single
`failed` write.  `failed` can follow `completed`: a failure in the
post-completion staging truncate or webhook dispatch overwrites a
previously committed `completed` with `failed`; apart from that case,
terminal states are final and the order never moves backward. -/
theorem status_writes_forward (failAt : Option Nat) (header : List String)
    (rows : List Row) (j : ImportJob) (stg prods : List PRow) :
    ForwardStatuses (process_csv_import failAt header rows
      ⟨some j, stg, prods, [], []⟩).statusWrites := by
  rcases process_cases failAt header rows j stg prods with
    h | ⟨m, h⟩ | ⟨m, h⟩ | ⟨i, m, hp, h⟩ | ⟨i, m, hp, h⟩ | ⟨i, m, hp, h⟩ |
    ⟨i, m, hp, h⟩ | ⟨i, m, hp, h⟩ | ⟨i, m, hp, h⟩ | ⟨i, m, hp, h⟩ | ⟨i, hp, h⟩
  · exact ⟨0, by omega, Or.inl (by rw [h]; rfl)⟩
  · exact ⟨0, by omega, Or.inr (by rw [h]; rfl)⟩
  · exact ⟨1, by omega, Or.inr (by rw [h]; rfl)⟩
  · exact ⟨1, by omega, Or.inr (by rw [h]; rfl)⟩
  · exact ⟨2, by omega, Or.inr (by rw [h]; rfl)⟩
  · exact ⟨3, by omega, Or.inr (by rw [h]; rfl)⟩
  · exact ⟨3, by omega, Or.inr (by rw [h]; rfl)⟩
  · exact ⟨3, by omega, Or.inr (by rw [h]; rfl)⟩
  · exact ⟨4, by omega, Or.inr (by rw [h]; rfl)⟩
  · exact ⟨4, by omega, Or.inr (by rw [h]; rfl)⟩
  · exact ⟨4, by omega, Or.inl (by rw [h]; rfl)⟩

/-- C7 counterexample: when the post-completion staging truncate (step 9,
`tasks.py` line 358) raises, the job's committed status sequence is
`parsing, validating, importing, completed, failed` — the status moves
again after `completed`, so `completed` is not terminal as claimed. -/
theorem status_writes_cx :
    (process_csv_import (some 9) ["sku", "name"] [["a", "b"]]
        ⟨some ⟨.pending, 0, 0, none⟩, [], [], [], []⟩).statusWrites
      = [.parsing, .validating, .importing, .completed, .failed] := by
  rfl

/-- C6 (amended): a run that ends with the job `completed` leaves the
staging area empty; and whatever step fails, the canonical table is either
untouched or merged with exactly the rows this run itself loaded into the
(previously emptied) staging area — stale staging contents from an earlier
run never reach a merge.  (A failed run, however, can leave its own rows
sitting in staging; see the counterexample.) -/
theorem staging_cleanup (failAt : Option Nat) (header : List String)
    (rows : List Row) (j : ImportJob) (stg prods : List PRow)
    (hj : j.status = .pending) :
    (∀ jc, (process_csv_import failAt header rows ⟨some j, stg, prods, [], []⟩).job
        = some jc → jc.status = .completed →
      (process_csv_import failAt header rows ⟨some j, stg, prods, [], []⟩).staging
        = []) ∧
    ((process_csv_import failAt header rows ⟨some j, stg, prods, [], []⟩).products
        = prods ∨
      ∃ i, findSkuIdx header = some i ∧
        (process_csv_import failAt header rows ⟨some j, stg, prods, [], []⟩).products
          = merge_staging_to_main prods
              (streamToStaging header (dedupedRows header rows i)).staged) := by
  rcases process_cases failAt header rows j stg prods with
    h | ⟨m, h⟩ | ⟨m, h⟩ | ⟨i, m, hp, h⟩ | ⟨i, m, hp, h⟩ | ⟨i, m, hp, h⟩ |
    ⟨i, m, hp, h⟩ | ⟨i, m, hp, h⟩ | ⟨i, m, hp, h⟩ | ⟨i, m, hp, h⟩ | ⟨i, hp, h⟩ <;>
    rw [h]
  · refine ⟨?_, Or.inl rfl⟩
    intro jc hjc hcs
    simp only [Option.some.injEq] at hjc
    subst hjc
    rw [hj] at hcs
    cases hcs
  · refine ⟨?_, Or.inl rfl⟩
    intro jc hjc hcs
    simp only [Option.some.injEq] at hjc
    subst hjc
    simp at hcs
  · refine ⟨?_, Or.inl rfl⟩
    intro jc hjc hcs
    simp only [Option.some.injEq] at hjc
    subst hjc
    simp at hcs
  · refine ⟨?_, Or.inl rfl⟩
    intro jc hjc hcs
    simp only [Option.some.injEq] at hjc
    subst hjc
    simp at hcs
  · refine ⟨?_, Or.inl rfl⟩
    intro jc hjc hcs
    simp only [Option.some.injEq] at hjc
    subst hjc
    simp at hcs
  · refine ⟨?_, Or.inl rfl⟩
    intro jc hjc hcs
    simp only [Option.some.injEq] at hjc
    subst hjc
    simp at hcs
  · refine ⟨?_, Or.inl rfl⟩
    intro jc hjc hcs
    simp only [Option.some.injEq] at hjc
    subst hjc
    simp at hcs
  · refine ⟨?_, Or.inr ⟨i, hp, rfl⟩⟩
    intro jc hjc hcs
    simp only [Option.some.injEq] at hjc
    subst hjc
    simp at hcs
  · refine ⟨?_, Or.inr ⟨i, hp, rfl⟩⟩
    intro jc hjc hcs
    simp only [Option.some.injEq] at hjc
    subst hjc
    simp at hcs
  · refine ⟨?_, Or.inr ⟨i, hp, rfl⟩⟩
    intro jc hjc hcs
    simp only [Option.some.injEq] at hjc
    subst hjc
    simp at hcs
  · exact ⟨fun _ _ _ => rfl, Or.inr ⟨i, hp, rfl⟩⟩

/-- C6 counterexample: if the completion commit (step 8) raises right after
the merge, the job ends `failed` and the rows this run loaded are still
sitting in the staging table — the staging area is not cleared after the
merge stage on the failure path (`tasks.py` truncates staging at line 358
only on the success path). -/
theorem staging_cleanup_cx :
    (process_csv_import (some 8) ["sku", "name"] [["a", "b"]]
        ⟨some ⟨.pending, 0, 0, none⟩, [], [], [], []⟩).staging
      = [⟨"a", "b", "", 0, true⟩] ∧
    (process_csv_import (some 8) ["sku", "name"] [["a", "b"]]
        ⟨some ⟨.pending, 0, 0, none⟩, [], [], [], []⟩).job
      = some ⟨.failed, 1, 0, some "error"⟩ := by
  constructor <;> rfl

/-- C8: in every execution, the successive values committed to
`processed_records` form a non-decreasing sequence, and every committed
value is at most the job's `total_records` (which is set, from the deduped
row count, before any progress value is written). -/
theorem processed_writes_monotone (failAt : Option Nat) (header : List String)
    (rows : List Row) (j : ImportJob) (stg prods : List PRow) :
    (process_csv_import failAt header rows
        ⟨some j, stg, prods, [], []⟩).processedWrites.Chain' (· ≤ ·) ∧
    (∀ w ∈ (process_csv_import failAt header rows
        ⟨some j, stg, prods, [], []⟩).processedWrites,
      ∀ jc, (process_csv_import failAt header rows
          ⟨some j, stg, prods, [], []⟩).job = some jc →
        w ≤ jc.total_records) := by
  rcases process_cases failAt header rows j stg prods with
    h | ⟨m, h⟩ | ⟨m, h⟩ | ⟨i, m, hp, h⟩ | ⟨i, m, hp, h⟩ | ⟨i, m, hp, h⟩ |
    ⟨i, m, hp, h⟩ | ⟨i, m, hp, h⟩ | ⟨i, m, hp, h⟩ | ⟨i, m, hp, h⟩ | ⟨i, hp, h⟩ <;>
    rw [h]
  · exact ⟨List.chain'_nil, by intro w hw; simp at hw⟩
  · exact ⟨List.chain'_nil, by intro w hw; simp at hw⟩
  · exact ⟨List.chain'_nil, by intro w hw; simp at hw⟩
  · exact ⟨List.chain'_nil, by intro w hw; simp at hw⟩
  · exact ⟨List.chain'_nil, by intro w hw; simp at hw⟩
  · exact ⟨List.chain'_nil, by intro w hw; simp at hw⟩
  · obtain ⟨hc, hb, hlen, hacc⟩ := streamToStaging_spec header (dedupedRows header rows i)
    refine ⟨hc, ?_⟩
    intro w hw jc hjc
    simp only [Option.some.injEq] at hjc
    subst hjc
    exact hlen ▸ hb w hw
  · obtain ⟨hc, hb, hlen, hacc⟩ := streamToStaging_spec header (dedupedRows header rows i)
    refine ⟨hc, ?_⟩
    intro w hw jc hjc
    simp only [Option.some.injEq] at hjc
    subst hjc
    exact hlen ▸ hb w hw
  · obtain ⟨hc, hb, hlen, hacc⟩ := streamToStaging_spec header (dedupedRows header rows i)
    refine ⟨chain_append_le _ _ hc hb, ?_⟩
    intro w hw jc hjc
    simp only [Option.some.injEq] at hjc
    subst hjc
    have hwb : w ≤ (streamToStaging header (dedupedRows header rows i)).processed := by
      rcases List.mem_append.mp hw with h1 | h2
      · exact hb w h1
      · simp only [List.mem_singleton] at h2
        omega
    exact hlen ▸ hwb
  · obtain ⟨hc, hb, hlen, hacc⟩ := streamToStaging_spec header (dedupedRows header rows i)
    refine ⟨chain_append_le _ _ hc hb, ?_⟩
    intro w hw jc hjc
    simp only [Option.some.injEq] at hjc
    subst hjc
    have hwb : w ≤ (streamToStaging header (dedupedRows header rows i)).processed := by
      rcases List.mem_append.mp hw with h1 | h2
      · exact hb w h1
      · simp only [List.mem_singleton] at h2
        omega
    exact hlen ▸ hwb
  · obtain ⟨hc, hb, hlen, hacc⟩ := streamToStaging_spec header (dedupedRows header rows i)
    refine ⟨chain_append_le _ _ hc hb, ?_⟩
    intro w hw jc hjc
    simp only [Option.some.injEq] at hjc
    subst hjc
    have hwb : w ≤ (streamToStaging header (dedupedRows header rows i)).processed := by
      rcases List.mem_append.mp hw with h1 | h2
      · exact hb w h1
      · simp only [List.mem_singleton] at h2
        omega
    exact hlen ▸ hwb

/-- C10: invoking the pipeline with a job id for which no `ImportJob`
record exists returns without error and leaves the whole persistent state —
job records, staging area, canonical products — unchanged
(`tasks.py` lines 126-129). -/
theorem job_not_found_noop (failAt : Option Nat) (header : List String)
    (rows : List Row) (st : SysSt) (hj : st.job = none) :
    process_csv_import failAt header rows st = st ∧
    (process_csv_import failAt header rows st).job = none ∧
    (process_csv_import failAt header rows st).staging = st.staging ∧
    (process_csv_import failAt header rows st).products = st.products := by
  have h := run_notfound failAt header rows st hj
  exact ⟨h, by rw [h, hj], by rw [h], by rw [h]⟩

/-! ### Claim C3: a CSV without a `name` column -/

theorem dictGet_not_mem (header : List String) (row : Row) (k : String)
    (h : ∀ x ∈ header, cleanKey x ≠ k) : dictGet (dictOf header row) k = none := by
  unfold dictGet
  cases hf : (dictOf header row).reverse.find? (fun e => e.1 = k) with
  | none => rfl
  | some e =>
    exfalso
    have hmem := List.mem_reverse.mp (List.mem_of_find?_eq_some hf)
    have hpe := List.find?_some hf
    simp only [decide_eq_true_eq] at hpe
    obtain ⟨idx, hidx, heq⟩ := List.mem_map.mp hmem
    rw [← heq] at hpe
    simp only at hpe
    have hlt : idx < header.length := List.mem_range.mp hidx
    refine h (header.getD idx "") ?_ hpe
    rw [List.getD_eq_getElem header "" hlt]
    exact List.getElem_mem hlt

theorem mapRow_name_missing (header : List String) (row : Row)
    (h : ∀ x ∈ header, cleanKey x ≠ "name") : (mapRow header row).name = "" := by
  show pyStrip (getStr (dictOf header row) "name") = ""
  unfold getStr
  rw [dictGet_not_mem header row "name" h]
  rfl

theorem loader_no_name (header : List String) (rows : List Row)
    (h : ∀ x ∈ header, cleanKey x ≠ "name") :
    (streamToStaging header rows).staged = [] ∧
    (streamToStaging header rows).skipped = rows.length := by
  have key : ∀ (rs : List Row) (st : LoopSt), st.batch = [] → st.staged = [] →
      (rs.foldl (loaderStep header) st).batch = [] ∧
      (rs.foldl (loaderStep header) st).staged = [] ∧
      (rs.foldl (loaderStep header) st).skipped = st.skipped + rs.length := by
    intro rs
    induction rs with
    | nil => exact fun st h1 h2 => ⟨h1, h2, by simp⟩
    | cons r t ih =>
      intro st h1 h2
      rw [List.foldl_cons]
      have hstep : loaderStep header st r =
          { st with
            skipped := st.skipped + 1
            processed := st.processed + 1
            writes :=
              if (st.processed + 1) % 1000 = 0 then st.writes ++ [st.processed + 1]
              else st.writes } := by
        simp only [loaderStep]
        rw [if_pos (Or.inr (mapRow_name_missing header r h))]
      rw [hstep]
      obtain ⟨g1, g2, g3⟩ := ih
        { st with
          skipped := st.skipped + 1
          processed := st.processed + 1
          writes :=
            if (st.processed + 1) % 1000 = 0 then st.writes ++ [st.processed + 1]
            else st.writes } h1 h2
      refine ⟨g1, g2, ?_⟩
      rw [g3]
      simp only [List.length_cons]
      omega
  obtain ⟨g1, g2, g3⟩ := key rows ⟨[], [], 0, 0, []⟩ rfl rfl
  simp only [streamToStaging]
  rw [if_pos (by rw [g1]; rfl)]
  exact ⟨g2, by rw [g3]; exact Nat.zero_add rows.length⟩

/-- C3 (amended): a CSV whose header resolves a SKU-like column but has no
`name` column does not fail — the deduplicated rows are all counted as
skipped (they lack a name), nothing is staged, and the job completes with
`status=completed`, `error_message` unchanged (null), equal
`processed_records` and `total_records`, and the canonical products table
untouched. -/
theorem missing_name_completes (header : List String) (rows : List Row) (i : Nat)
    (j : ImportJob) (stg prods : List PRow)
    (hp : findSkuIdx header = some i)
    (hname : ∀ x ∈ header, cleanKey x ≠ "name") :
    (process_csv_import none header rows ⟨some j, stg, prods, [], []⟩).products
        = prods ∧
    (process_csv_import none header rows ⟨some j, stg, prods, [], []⟩).job
        = some { j with
            status := .completed
            total_records := (dedupedRows header rows i).length
            processed_records := (dedupedRows header rows i).length } ∧
    (streamToStaging header (dedupedRows header rows i)).staged = [] ∧
    (streamToStaging header (dedupedRows header rows i)).skipped
        = (dedupedRows header rows i).length := by
  have hnone : ∀ k, k ≤ 10 → (none : Option Nat) ≠ some k :=
    fun _ _ h => Option.noConfusion h
  have hrun := run_success none header rows i j stg prods hp hnone
  obtain ⟨hstaged, hskip⟩ := loader_no_name header (dedupedRows header rows i) hname
  obtain ⟨_, _, hlen, _⟩ := streamToStaging_spec header (dedupedRows header rows i)
  rw [hrun]
  refine ⟨?_, ?_, hstaged, hskip⟩
  · show merge_staging_to_main prods
      (streamToStaging header (dedupedRows header rows i)).staged = prods
    rw [hstaged]
    rfl
  · show some _ = some _
    rw [hlen]

/-- C3 counterexample: the one-column CSV `sku` with the single data row
`a1` has a SKU column but no `name` column; the import job ends
`completed` with a null `error_message` (and its row skipped), not
`failed` with a non-null `error_message` as claimed. -/
theorem missing_name_cx :
    (process_csv_import none ["sku"] [["a1"]]
        ⟨some ⟨.pending, 0, 0, none⟩, [], [], [], []⟩).job
      = some ⟨.completed, 1, 1, none⟩ ∧
    (process_csv_import none ["sku"] [["a1"]]
        ⟨some ⟨.pending, 0, 0, none⟩, [], [], [], []⟩).products = [] := by
  constructor <;> rfl

/-! ### Claim C5: price normalisation -/

/-- C5 (amended): the loader's price normalisation strips whitespace, then
drops dollar signs and comma grouping separators, and parses the remainder
as a plain decimal; a missing (`None`) or empty value defaults to `0.0`, an
unparseable value defaults to `0.0`, and a successfully parsed value —
negative values included — is staged unchanged: no clamping happens. -/
theorem price_normalization (s : String) :
    normalizePrice none = 0 ∧
    normalizePrice (some "") = 0 ∧
    (s ≠ "" → pyFloat (stripPrice s) = none → normalizePrice (some s) = 0) ∧
    (∀ q, s ≠ "" → pyFloat (stripPrice s) = some q → normalizePrice (some s) = q) := by
  refine ⟨rfl, rfl, ?_, ?_⟩
  · intro hs hn
    simp only [normalizePrice]
    rw [if_neg hs, hn]
  · intro q hs hq
    simp only [normalizePrice]
    rw [if_neg hs, hq]

/-- C5 counterexample: the price string `-5` parses to the negative value
`-5` and is staged as such — `tasks.py` lines 258-266 never clamp a
negative parsed price to zero, contrary to the claim. -/
theorem price_negative_cx :
    normalizePrice (some "-5") = -5 ∧ ((-5 : Rat) < 0) := by
  constructor
  · simp only [normalizePrice]
    rw [if_neg (show ("-5" : String) ≠ "" by decide)]
    rw [show pyFloat (stripPrice "-5")
        = some (((-1 : Int) : Rat) * ((5 : Nat) : Rat)) from rfl]
    show (((-1 : Int) : Rat) * ((5 : Nat) : Rat)) = -5
    norm_num
  · norm_num

/-! ### Claim C4: skip accounting for empty-SKU rows -/

theorem pyLower_empty_iff (s : String) : pyLower s = "" ↔ s = "" := by
  constructor
  · intro h
    have h2 : s.data.map Char.toLower = [] := by
      have h3 : (pyLower s).data = [] := by rw [h]
      exact h3
    exact String.ext (List.map_eq_nil_iff.mp h2)
  · intro h
    rw [h]
    rfl

/-- When all nonempty normalised keys of the input are pairwise distinct,
the dedupe store holds exactly one entry per valid row, in input order:
no row is ever overwritten. -/
theorem dedupeStore_of_nodup (i hlen : Nat) (rows : List Row)
    (hnd : ((rows.filter (fun r => rowKeyAt i hlen r ≠ "")).map
        (rowKeyAt i hlen)).Nodup) :
    dedupeStore i hlen rows
      = (rows.filter (fun r => rowKeyAt i hlen r ≠ "")).map
          (fun r => (rowKeyAt i hlen r, padRow hlen r)) := by
  induction rows using List.reverseRecOn with
  | nil => rfl
  | append_singleton rs r ih =>
    by_cases hk : rowKeyAt i hlen r = ""
    · have hf : List.filter (fun t => rowKeyAt i hlen t ≠ "") [r] = [] := by simp [hk]
      rw [List.filter_append, hf, List.append_nil] at hnd ⊢
      rw [dedupeStore_append_singleton]
      simp only [dstep, if_pos hk]
      exact ih hnd
    · have hf : List.filter (fun t => rowKeyAt i hlen t ≠ "") [r] = [r] := by simp [hk]
      rw [List.filter_append, hf, List.map_append] at hnd
      rw [List.nodup_append] at hnd
      obtain ⟨hnd1, _, hdisj⟩ := hnd
      have hkey : rowKeyAt i hlen r ∉
          (rs.filter (fun t => rowKeyAt i hlen t ≠ "")).map (rowKeyAt i hlen) := by
        intro hmem
        exact hdisj hmem (by simp)
      rw [dedupeStore_append_singleton, List.filter_append, hf]
      simp only [dstep, if_neg hk]
      rw [ih hnd1]
      unfold insertReplace
      rw [List.map_append]
      congr 1
      · refine List.filter_eq_self.mpr ?_
        intro e he
        obtain ⟨t, ht, rfl⟩ := List.mem_map.mp he
        simp only [ne_eq, decide_not, Bool.not_eq_true', decide_eq_false_iff_not]
        intro hEq
        exact hkey (hEq ▸ List.mem_map_of_mem (rowKeyAt i hlen) ht)

/-- When every streamed row carries a nonempty SKU and name, nothing is
skipped and the staging area receives all rows, in order. -/
theorem loader_all_valid (header : List String) (rows : List Row)
    (h : ∀ r ∈ rows,
      ¬((mapRow header r).sku = "" ∨ (mapRow header r).name = "")) :
    (streamToStaging header rows).staged = rows.map (mapRow header) ∧
    (streamToStaging header rows).skipped = 0 := by
  have key : ∀ (rs : List Row) (st : LoopSt),
      (∀ r ∈ rs, ¬((mapRow header r).sku = "" ∨ (mapRow header r).name = "")) →
      (rs.foldl (loaderStep header) st).staged
          ++ (rs.foldl (loaderStep header) st).batch
        = st.staged ++ (st.batch ++ rs.map (mapRow header)) ∧
      (rs.foldl (loaderStep header) st).skipped = st.skipped := by
    intro rs
    induction rs with
    | nil =>
      intro st _
      exact ⟨by simp, rfl⟩
    | cons r t ih =>
      intro st hv
      rw [List.foldl_cons]
      have hvr := hv r (List.mem_cons_self r t)
      have hvt : ∀ x ∈ t,
          ¬((mapRow header x).sku = "" ∨ (mapRow header x).name = "") :=
        fun x hx => hv x (List.mem_cons_of_mem _ hx)
      by_cases hflush : batch_size ≤ (st.batch ++ [mapRow header r]).length
      · have hstep : loaderStep header st r =
            { st with
              batch := []
              staged := st.staged ++ (st.batch ++ [mapRow header r])
              processed := st.processed + (st.batch ++ [mapRow header r]).length
              writes := st.writes
                ++ [st.processed + (st.batch ++ [mapRow header r]).length] } := by
          simp only [loaderStep]
          rw [if_neg hvr, if_pos hflush]
        rw [hstep]
        obtain ⟨g1, g2⟩ := ih
          { st with
            batch := []
            staged := st.staged ++ (st.batch ++ [mapRow header r])
            processed := st.processed + (st.batch ++ [mapRow header r]).length
            writes := st.writes
              ++ [st.processed + (st.batch ++ [mapRow header r]).length] } hvt
        refine ⟨?_, g2⟩
        rw [g1]
        simp [List.append_assoc]
      · have hstep : loaderStep header st r =
            { st with batch := st.batch ++ [mapRow header r] } := by
          simp only [loaderStep]
          rw [if_neg hvr, if_neg hflush]
        rw [hstep]
        obtain ⟨g1, g2⟩ := ih { st with batch := st.batch ++ [mapRow header r] } hvt
        refine ⟨?_, g2⟩
        rw [g1]
        simp [List.append_assoc]
  have hs : (rows.foldl (loaderStep header) ⟨[], [], 0, 0, []⟩).staged
      ++ (rows.foldl (loaderStep header) ⟨[], [], 0, 0, []⟩).batch
        = rows.map (mapRow header) := by
    have := (key rows ⟨[], [], 0, 0, []⟩ h).1
    simpa using this
  have hk : (rows.foldl (loaderStep header) ⟨[], [], 0, 0, []⟩).skipped = 0 :=
    (key rows ⟨[], [], 0, 0, []⟩ h).2
  simp only [streamToStaging]
  by_cases hbat : (rows.foldl (loaderStep header) ⟨[], [], 0, 0, []⟩).batch.isEmpty
  · rw [if_pos hbat]
    have hb : (rows.foldl (loaderStep header) ⟨[], [], 0, 0, []⟩).batch = [] :=
      List.isEmpty_iff.mp hbat
    rw [hb, List.append_nil] at hs
    exact ⟨hs, hk⟩
  · rw [if_neg hbat]
    exact ⟨hs, hk⟩

/-- Merging staging rows whose SKUs are all fresh and pairwise distinct
just appends them to the canonical table. -/
theorem merge_all_fresh (staging : List PRow) : ∀ main : List PRow,
    ((main ++ staging).map PRow.sku).Nodup →
    merge_staging_to_main main staging = main ++ staging := by
  induction staging with
  | nil =>
    intro main _
    simp [merge_staging_to_main]
  | cons s t ih =>
    intro main h
    have hassoc : main ++ s :: t = (main ++ [s]) ++ t := by simp
    have hs : s.sku ∉ main.map PRow.sku := by
      rw [List.map_append, List.nodup_append] at h
      intro hmem
      exact h.2.2 hmem (by simp)
    have hone : mergeOne main s = main ++ [s] := by
      unfold mergeOne
      rw [if_neg hs]
    have hmerge : merge_staging_to_main main (s :: t)
        = merge_staging_to_main (mergeOne main s) t := rfl
    rw [hmerge, hone, ih (main ++ [s]) (by rwa [hassoc] at h), ← hassoc]

theorem mapRow_pair (a b : String) :
    mapRow ["sku", "name"] [a, b] = ⟨pyStrip a, pyStrip b, "", 0, true⟩ := rfl

set_option maxHeartbeats 1600000 in
/-- C4 (amended): for a `sku,name` CSV with 10 data rows of which 2 have
an empty (after trimming) SKU and the other 8 have pairwise-distinct
case-folded SKUs and nonempty names, the completed job has
`total_records = 8` — the two empty-SKU rows are dropped during dedupe
preprocessing, before the record count — the loader's skip counter stays
`0`, and canonical storage (starting empty) ends up with exactly the 8
valid rows (trimmed, in dedupe key order). -/
theorem skip_accounting (rawRows : List (String × String)) (j : ImportJob)
    (stg : List PRow)
    (hlen10 : rawRows.length = 10)
    (hvalid : (rawRows.filter (fun p => pyStrip p.1 ≠ "")).length = 8)
    (hnodup : ((rawRows.filter (fun p => pyStrip p.1 ≠ "")).map
        (fun p => normKey p.1)).Nodup)
    (hnames : ∀ p ∈ rawRows, pyStrip p.1 ≠ "" → pyStrip p.2 ≠ "") :
    (process_csv_import none ["sku", "name"] (rawRows.map (fun p => [p.1, p.2]))
        ⟨some j, stg, [], [], []⟩).job
      = some { j with
          status := .completed
          total_records := 8
          processed_records := 8 } ∧
    (streamToStaging ["sku", "name"]
        (dedupedRows ["sku", "name"] (rawRows.map (fun p => [p.1, p.2])) 0)).skipped
      = 0 ∧
    (process_csv_import none ["sku", "name"] (rawRows.map (fun p => [p.1, p.2]))
        ⟨some j, stg, [], [], []⟩).products.Perm
      ((rawRows.filter (fun p => pyStrip p.1 ≠ "")).map
        (fun p => (⟨pyStrip p.1, pyStrip p.2, "", 0, true⟩ : PRow))) := by
  have hfilter : (rawRows.map (fun p => [p.1, p.2])).filter
        (fun r => rowKeyAt 0 2 r ≠ "")
      = (rawRows.filter (fun p => pyStrip p.1 ≠ "")).map (fun p => [p.1, p.2]) := by
    rw [List.filter_map]
    congr 1
    refine List.filter_congr ?_
    intro p _
    show decide (rowKeyAt 0 2 [p.1, p.2] ≠ "") = decide (pyStrip p.1 ≠ "")
    simp only [decide_eq_decide]
    exact not_congr (pyLower_empty_iff (pyStrip p.1))
  have hnd2 : (((rawRows.map (fun p => [p.1, p.2])).filter
        (fun r => rowKeyAt 0 2 r ≠ "")).map (rowKeyAt 0 2)).Nodup := by
    rw [hfilter, List.map_map]
    exact hnodup
  have hstore := dedupeStore_of_nodup 0 2 (rawRows.map (fun p => [p.1, p.2])) hnd2
  have hdd : dedupedRows ["sku", "name"] (rawRows.map (fun p => [p.1, p.2])) 0
      = (sortStore (dedupeStore 0 2 (rawRows.map (fun p => [p.1, p.2])))).map
          Prod.snd := rfl
  have hperm : (dedupedRows ["sku", "name"] (rawRows.map (fun p => [p.1, p.2])) 0).Perm
      ((rawRows.filter (fun p => pyStrip p.1 ≠ "")).map (fun p => [p.1, p.2])) := by
    rw [hdd, hstore, hfilter]
    have h2 : (((rawRows.filter (fun p => pyStrip p.1 ≠ "")).map
        (fun p => [p.1, p.2])).map
          (fun r => (rowKeyAt 0 2 r, padRow 2 r))).map Prod.snd
        = (rawRows.filter (fun p => pyStrip p.1 ≠ "")).map (fun p => [p.1, p.2]) := by
      rw [List.map_map, List.map_map]
      exact List.map_congr_left (fun p _ => rfl)
    refine ((sortStore_perm _).map Prod.snd).trans ?_
    rw [h2]
  have hlen8 : (dedupedRows ["sku", "name"] (rawRows.map (fun p => [p.1, p.2])) 0).length
      = 8 := by
    rw [hperm.length_eq, List.length_map, hvalid]
  have hv : ∀ r ∈ dedupedRows ["sku", "name"] (rawRows.map (fun p => [p.1, p.2])) 0,
      ¬((mapRow ["sku", "name"] r).sku = "" ∨ (mapRow ["sku", "name"] r).name = "") := by
    intro r hr
    have hr2 := hperm.mem_iff.mp hr
    obtain ⟨p, hpV, rfl⟩ := List.mem_map.mp hr2
    have hp1 : pyStrip p.1 ≠ "" := by
      have := List.of_mem_filter hpV
      simpa using this
    have hp2 : pyStrip p.2 ≠ "" := hnames p (List.mem_of_mem_filter hpV) hp1
    rw [mapRow_pair]
    exact not_or.mpr ⟨hp1, hp2⟩
  obtain ⟨hstaged, hskip⟩ := loader_all_valid ["sku", "name"]
    (dedupedRows ["sku", "name"] (rawRows.map (fun p => [p.1, p.2])) 0) hv
  obtain ⟨_, _, hLp, _⟩ := streamToStaging_spec ["sku", "name"]
    (dedupedRows ["sku", "name"] (rawRows.map (fun p => [p.1, p.2])) 0)
  have hstperm : (streamToStaging ["sku", "name"]
      (dedupedRows ["sku", "name"] (rawRows.map (fun p => [p.1, p.2])) 0)).staged.Perm
      ((rawRows.filter (fun p => pyStrip p.1 ≠ "")).map
        (fun p => (⟨pyStrip p.1, pyStrip p.2, "", 0, true⟩ : PRow))) := by
    rw [hstaged]
    have h1 := hperm.map (mapRow ["sku", "name"])
    rw [List.map_map] at h1
    have h2 : (rawRows.filter (fun p => pyStrip p.1 ≠ "")).map
        ((mapRow ["sku", "name"]) ∘ fun p => [p.1, p.2])
        = (rawRows.filter (fun p => pyStrip p.1 ≠ "")).map
            (fun p => (⟨pyStrip p.1, pyStrip p.2, "", 0, true⟩ : PRow)) :=
      List.map_congr_left (fun p _ => mapRow_pair p.1 p.2)
    refine h1.trans ?_
    rw [h2]
  have hsknd : ((streamToStaging ["sku", "name"]
      (dedupedRows ["sku", "name"] (rawRows.map (fun p => [p.1, p.2])) 0)).staged.map
        PRow.sku).Nodup := by
    refine ((hstperm.map PRow.sku).nodup_iff).mpr ?_
    rw [List.map_map]
    have h2 : (rawRows.filter (fun p => pyStrip p.1 ≠ "")).map (fun p => normKey p.1)
        = ((rawRows.filter (fun p => pyStrip p.1 ≠ "")).map
            (fun p => pyStrip p.1)).map pyLower := by
      rw [List.map_map]
      exact List.map_congr_left (fun p _ => rfl)
    rw [h2] at hnodup
    exact hnodup.of_map pyLower
  have hmerge : merge_staging_to_main []
      (streamToStaging ["sku", "name"]
        (dedupedRows ["sku", "name"] (rawRows.map (fun p => [p.1, p.2])) 0)).staged
      = (streamToStaging ["sku", "name"]
          (dedupedRows ["sku", "name"] (rawRows.map (fun p => [p.1, p.2])) 0)).staged := by
    have h3 := merge_all_fresh (streamToStaging ["sku", "name"]
      (dedupedRows ["sku", "name"] (rawRows.map (fun p => [p.1, p.2])) 0)).staged []
      (by simpa using hsknd)
    simpa using h3
  have hnone : ∀ k, k ≤ 10 → (none : Option Nat) ≠ some k :=
    fun _ _ h => Option.noConfusion h
  have hrun := run_success none ["sku", "name"] (rawRows.map (fun p => [p.1, p.2])) 0
    j stg [] rfl hnone
  refine ⟨?_, hskip, ?_⟩
  · rw [hrun]
    show some _ = some _
    rw [hLp, hlen8]
  · rw [hrun]
    show (merge_staging_to_main []
      (streamToStaging ["sku", "name"]
        (dedupedRows ["sku", "name"] (rawRows.map (fun p => [p.1, p.2])) 0)).staged).Perm _
    rw [hmerge]
    exact hstperm

/-- C4 counterexample: a 10-row CSV where rows 9 and 10 have an empty SKU
ends with `total_records = 8`, not 10 — the empty-SKU rows are dropped by
the dedupe preprocessing before the post-dedupe count — and the loader's
skip counter is 0, not 2. -/
theorem skip_accounting_cx :
    (process_csv_import none ["sku", "name"]
        [["s1", "n1"], ["s2", "n2"], ["s3", "n3"], ["s4", "n4"], ["s5", "n5"],
         ["s6", "n6"], ["s7", "n7"], ["s8", "n8"], ["", "x9"], ["", "x10"]]
        ⟨some ⟨.pending, 0, 0, none⟩, [], [], [], []⟩).job
      = some ⟨.completed, 8, 8, none⟩ ∧
    (streamToStaging ["sku", "name"]
        (dedupedRows ["sku", "name"]
          [["s1", "n1"], ["s2", "n2"], ["s3", "n3"], ["s4", "n4"], ["s5", "n5"],
           ["s6", "n6"], ["s7", "n7"], ["s8", "n8"], ["", "x9"], ["", "x10"]] 0)).skipped
      = 0 := by
  constructor <;> rfl

/-! ### Counterexample and witnesses -/

/-- C2 counterexample: a data row whose SKU field is empty after trimming
is dropped entirely (`preprocesscsv.py` lines 93-95): the deduplicated
output of a one-row input with an empty SKU contains no data row at all for
that key, rather than the key's last occurrence as the claim states for
every key. -/
theorem dedupe_empty_key_cx :
    preprocess_dedupe_csv ["sku", "name"] [["", "payload"]] = .ok [["sku", "name"]] ∧
    rowKeyAt 0 2 ["", "payload"] = "" ∧
    ([["", "payload"]].filter (fun r => rowKeyAt 0 2 r = "")).getLast?
      = some ["", "payload"] := by
  refine ⟨rfl, rfl, rfl⟩

theorem merge_upsert_witness :
    (merge_staging_to_main [⟨"X1", "Old", "", 0, true⟩] [⟨"X1", "New", "", 0, true⟩]).filter
        (fun p => p.sku = "X1") = [⟨"X1", "New", "", 0, true⟩] :=
  (merge_upsert [⟨"X1", "Old", "", 0, true⟩] [⟨"X1", "New", "", 0, true⟩]
    (by decide) (by decide)).1 ⟨"X1", "New", "", 0, true⟩ (by decide)

theorem dedupe_output_last_wins_witness :
    ∃ out, preprocess_dedupe_csv ["sku", "name"] [["a", "1"], ["A", "2"]]
        = .ok (["sku", "name"] :: out) ∧
      out.filter (fun r => rowKeyAt 0 (["sku", "name"] : List String).length r = "a")
        = [["A", "2"]] := by
  obtain ⟨out, h1, h2, h3, h4⟩ :=
    dedupe_output_last_wins ["sku", "name"] [["a", "1"], ["A", "2"]] 0 rfl
  refine ⟨out, h1, ?_⟩
  rw [h3 "a" (by decide)]
  rfl

theorem missing_name_completes_witness :
    (process_csv_import none ["sku"] [["a1"]]
        ⟨some ⟨.pending, 0, 0, none⟩, [], [], [], []⟩).products = [] ∧
    (process_csv_import none ["sku"] [["a1"]]
        ⟨some ⟨.pending, 0, 0, none⟩, [], [], [], []⟩).job
      = some ⟨.completed, 1, 1, none⟩ := by
  obtain ⟨h1, h2, h3, h4⟩ := missing_name_completes ["sku"] [["a1"]] 0
    ⟨.pending, 0, 0, none⟩ [] [] rfl (by decide)
  refine ⟨h1, ?_⟩
  rw [h2]
  rfl

theorem skip_accounting_witness :
    (process_csv_import none ["sku", "name"]
        ([(("s1" : String), ("n1" : String)), ("s2", "n2"), ("s3", "n3"),
          ("s4", "n4"), ("s5", "n5"), ("s6", "n6"), ("s7", "n7"), ("s8", "n8"),
          ("", "x9"), ("", "x10")].map (fun p => [p.1, p.2]))
        ⟨some ⟨.pending, 0, 0, none⟩, [], [], [], []⟩).job
      = some ⟨.completed, 8, 8, none⟩ := by
  obtain ⟨h1, h2, h3⟩ := skip_accounting
    [(("s1" : String), ("n1" : String)), ("s2", "n2"), ("s3", "n3"),
     ("s4", "n4"), ("s5", "n5"), ("s6", "n6"), ("s7", "n7"), ("s8", "n8"),
     ("", "x9"), ("", "x10")] ⟨.pending, 0, 0, none⟩ []
    (by decide) (by decide) (by decide) (by decide)
  exact h1

theorem price_normalization_witness :
    ("$1,234.50" : String) ≠ "" ∧
    normalizePrice (some "$1,234.50") = 2469 / 2 := by
  constructor
  · decide
  · have hq : pyFloat (stripPrice "$1,234.50")
        = some (((1 : Int) : Rat) * (((1234 : Nat) : Rat)
            + ((50 : Nat) : Rat) / ((10 : Rat) ^ (2 : Nat)))) := rfl
    have h := (price_normalization "$1,234.50").2.2.2 _ (by decide) hq
    rw [h]
    push_cast
    norm_num

theorem staging_cleanup_witness :
    (⟨ImportStatus.pending, 0, 0, none⟩ : ImportJob).status = .pending ∧
    (process_csv_import none ["sku", "name"] [["a", "b"]]
        ⟨some ⟨.pending, 0, 0, none⟩, [], [], [], []⟩).staging = [] :=
  ⟨rfl, (staging_cleanup none ["sku", "name"] [["a", "b"]]
      ⟨.pending, 0, 0, none⟩ [] [] rfl).1 _ rfl rfl⟩

theorem processed_writes_monotone_witness :
    (process_csv_import none ["sku", "name"] [["a", "b"]]
        ⟨some ⟨.pending, 0, 0, none⟩, [], [], [], []⟩).processedWrites.Chain' (· ≤ ·) :=
  (processed_writes_monotone none ["sku", "name"] [["a", "b"]]
    ⟨.pending, 0, 0, none⟩ [] []).1

theorem dedupe_run_deterministic_witness :
    emitLines ["sku"] [("b", ["b"]), ("a", ["a"])]
      = emitLines ["sku"] [("a", ["a"]), ("b", ["b"])] ∧
    preprocess_dedupe_csv ["sku"] [["a"], ["b"]]
      = .ok (emitLines ["sku"] [("b", ["b"]), ("a", ["a"])]) := by
  have h := dedupe_run_deterministic ["sku"] [["a"], ["b"]] 0
    [("b", ["b"]), ("a", ["a"])] [("a", ["a"]), ("b", ["b"])] (by decide) (by decide)
  exact ⟨h.1, h.2 rfl⟩

theorem job_not_found_noop_witness :
    process_csv_import none ["sku"] [["a"]] ⟨none, [], [], [], []⟩
      = ⟨none, [], [], [], []⟩ :=
  (job_not_found_noop none ["sku"] [["a"]] ⟨none, [], [], [], []⟩ rfl).1

end ProductImporter
